import Mathlib

/-!
A shallow embedding of `src/mangle.c` (the honggfuzz input mutator) and proofs
about its operators.  Buffers are modelled as total byte functions over `Nat`
indices (the backing `dynamicFile` region persists across `input_setSize`
calls, as in the mmap-backed original); the RNG oracle is a deterministic tape.
-/

set_option linter.unusedVariables false
set_option maxRecDepth 8000

namespace Mangle

/-- A byte lies in printable ASCII `[0x20, 0x7E]`. -/
def printableByte (b : Nat) : Prop := 0x20 ≤ b ∧ b ≤ 0x7E

instance : DecidablePred printableByte := fun b =>
  inferInstanceAs (Decidable (0x20 ≤ b ∧ b ≤ 0x7E))

/-- Modelled from the spec: the RNG oracle (spec §6).  A deterministic tape of
draws; `pos` counts the draws consumed so far.  Each `util_rndGet` /
`util_rnd64` / `util_rndPrintable` call consumes one cell and each
`util_rndBuf*(dst, len)` call consumes `len` cells, so RNG consumption is
observable as the final `pos`. -/
structure Rng where
  tape : Nat → Nat
  pos : Nat

/-- The raw value of the `k`-th cell after the current position. -/
def Rng.cell (g : Rng) (k : Nat) : Nat := g.tape (g.pos + k)

/-- The tape after consuming `n` cells. -/
def Rng.next (g : Rng) (n : Nat) : Rng := ⟨g.tape, g.pos + n⟩

/-- Modelled from the spec: `rng.rnd(lo, hi) -> uint64`, inclusive uniform
(spec §6), realised as the `k`-th tape cell folded into `[lo, hi]`. -/
def rndRange (g : Rng) (k lo hi : Nat) : Nat := lo + g.cell k % (hi + 1 - lo)

/-- Modelled from the spec: `rng.rnd64() -> uint64` (spec §6), the `k`-th cell
reduced to 64 bits. -/
def rnd64At (g : Rng) (k : Nat) : Nat := g.cell k % 2 ^ 64

/-- Modelled from the spec: `rng.rndPrintable() -> uint8` in `[0x20, 0x7E]`
(spec §6), from one raw tape value. -/
def rndPrintableByte (t : Nat) : Nat := 0x20 + t % 95

/-- Modelled from the spec: `rng.rndBuf(dst, len)` (spec §6): `len` fresh random
bytes taken from cells `k, k+1, …`. -/
def rndBufR (g : Rng) (k len : Nat) : List Nat :=
  (List.range len).map fun j => g.cell (k + j) % 256

/-- Modelled from the spec: `rng.rndBufPrintable(dst, len)` (spec §6). -/
def rndBufP (g : Rng) (k len : Nat) : List Nat :=
  (List.range len).map fun j => rndPrintableByte (g.cell (k + j))

/-- Modelled from the spec: `util.turnToPrintable` on one byte (spec §6): if
`b < 0x20 || b > 0x7E`, replace with `b mod 95 + 0x20`. -/
def turnByte (b : Nat) : Nat := if b < 0x20 ∨ b > 0x7E then b % 95 + 0x20 else b

/-- Write one byte: `buf[i] = v`. -/
def setByte (b : Nat → Nat) (i v : Nat) : Nat → Nat :=
  fun j => if j = i then v else b j

/-- Write the bytes of `src` at offset `off` (a `memcpy`/`memmove` from a
separate source region). -/
def writeBytes (b : Nat → Nat) (off : Nat) (src : List Nat) : Nat → Nat :=
  fun j => if off ≤ j ∧ j < off + src.length then src.getD (j - off) 0 else b j

/-- Overlap-safe in-buffer copy of `n` bytes from `offFrom` to `offTo`
(`memmove` semantics: as if through a temporary). -/
def moveRange (b : Nat → Nat) (offFrom offTo n : Nat) : Nat → Nat :=
  fun j => if offTo ≤ j ∧ j < offTo + n then b (offFrom + (j - offTo)) else b j

/-- `memset(&buf[off], v, len)`. -/
def fillRange (b : Nat → Nat) (off len v : Nat) : Nat → Nat :=
  fun j => if off ≤ j ∧ j < off + len then v else b j

/-- `util_turnToPrintable(&buf[off], len)` applied in place. -/
def turnRange (b : Nat → Nat) (off len : Nat) : Nat → Nat :=
  fun j => if off ≤ j ∧ j < off + len then turnByte (b j) else b j

/-- Reduction of a C `int` to a `uint8_t` store (conversion modulo 256). -/
def byteOfInt (x : Int) : Nat := (x % 256).toNat

/-- Little-endian read of `n` bytes at `off` (a `memcpy` into an integer on a
little-endian host). -/
def readLE (b : Nat → Nat) (off : Nat) : Nat → Nat
  | 0 => 0
  | n + 1 => b off + 256 * readLE b (off + 1) n

/-- Little-endian byte decomposition of `v` into `n` bytes. -/
def leBytes (v : Nat) : Nat → List Nat
  | 0 => []
  | n + 1 => v % 256 :: leBytes (v / 256) n

/-- Recompose a little-endian byte list into a value. -/
def fromLE : List Nat → Nat
  | [] => 0
  | b :: bs => b % 256 + 256 * fromLE bs

/-- `__builtin_bswapNN` on the `n`-byte representation of `x`. -/
def bswapN (n x : Nat) : Nat := fromLE ((leBytes x n).reverse)

/-- The signed value of the `w`-bit two's-complement representation `x`. -/
def toSigned (w : Nat) (x : Nat) : Int :=
  if x < 2 ^ (w - 1) then (x : Int) else (x : Int) - 2 ^ w

/-- Decimal ASCII digits of `n`, most significant first; fuel-based structural
recursion so the kernel can evaluate it (`fuel > n` suffices). -/
def decDigitsAux : Nat → Nat → List Nat
  | 0, _ => []
  | f + 1, n => if n < 10 then [n + 0x30] else decDigitsAux f (n / 10) ++ [n % 10 + 0x30]

/-- Decimal ASCII digits of `n`. -/
def decDigits (n : Nat) : List Nat := decDigitsAux (n + 1) n

/-- `snprintf(buf, sizeof(buf), "%PRId64, (int64_t)u)`: the ASCII decimal text
of the 64-bit two's-complement reading of `u` (at most 20 characters, so the
32-byte stack buffer never truncates). -/
def asciiSigned64 (u : Nat) : List Nat :=
  if u < 2 ^ 63 then decDigits u else 0x2D :: decDigits (2 ^ 64 - u)

/-- The mutation context: `run_t` together with the `run->global` fields that
`mangle.c` reads.  `buf` is the backing `dynamicFile` byte region (total over
indices), `size` is `run->dynamicFileSz`, `dict` is the dictionary word queue
(`dictionaryCnt` is its length), `mutationsPerRun` is `run->mutationsPerRun`,
`mutateMutationsPerRun` is `run->global->mutate.mutationsPerRun`, and
`only_printable` is `run->global->cfg.only_printable`. -/
structure Run where
  buf : Nat → Nat
  size : Nat
  maxFileSz : Nat
  dict : List (List Nat)
  mutationsPerRun : Nat
  mutateMutationsPerRun : Nat
  only_printable : Bool

/-- Modelled from the spec: `input.setSize` (spec §6) adjusts the logical size;
`resize(n)` makes `[0, n)` addressable and leaves existing backing bytes
unchanged (spec §5: the store is externally managed and persists). -/
def input_setSize (r : Run) (n : Nat) : Run := { r with size := n }

/-- Every byte of the backing buffer is printable ASCII. -/
def bufPrintable (r : Run) : Prop := ∀ i, printableByte (r.buf i)

/-- Every byte of every dictionary entry is printable ASCII. -/
def dictPrintable (r : Run) : Prop := ∀ s ∈ r.dict, ∀ b ∈ s, printableByte b

/-- `mangle_Overwrite` (mangle.c:42-49): clamp `sz` to `dynamicFileSz - off`,
then `memmove` from `src`.  Every caller passes `off < dynamicFileSz`, so the
`size_t` subtraction agrees with `Nat` subtraction. -/
def mangle_Overwrite (r : Run) (src : List Nat) (off sz : Nat) : Run :=
  let maxToCopy := r.size - off
  let sz2 := if sz > maxToCopy then maxToCopy else sz
  { r with buf := writeBytes r.buf off (src.take sz2) }

/-- `mangle_Move` (mangle.c:51-70): no-op if either offset is at or past
`dynamicFileSz`; otherwise clamp `len` first to `dynamicFileSz - off_from - 1`
and then to `dynamicFileSz - off_to - 1`, and `memmove` inside the buffer. -/
def mangle_Move (r : Run) (off_from off_to len : Nat) : Run :=
  if off_from ≥ r.size then r
  else if off_to ≥ r.size then r
  else
    let len_from := r.size - off_from - 1
    let len_to := r.size - off_to - 1
    let len1 := if len > len_from then len_from else len
    let len2 := if len1 > len_to then len_to else len1
    { r with buf := moveRange r.buf off_from off_to len2 }

/-- `mangle_Inflate` (mangle.c:72-87): return if already at `maxFileSz`; clamp
`len` to the remaining headroom; grow via `input_setSize`; shift right with
`mangle_Move` (called with the already-grown `dynamicFileSz` as the length);
fill `[off, off+len)` with fresh (printable, if requested) random bytes. -/
def mangle_Inflate (r : Run) (off len : Nat) (printable : Bool) (g : Rng) : Run × Rng :=
  if r.size ≥ r.maxFileSz then (r, g)
  else
    let len1 := if len > r.maxFileSz - r.size then r.maxFileSz - r.size else len
    let r1 := input_setSize r (r.size + len1)
    let r2 := mangle_Move r1 off (off + len1) r1.size
    let fill := if printable then rndBufP g 0 len1 else rndBufR g 0 len1
    ({ r2 with buf := writeBytes r2.buf off fill }, g.next len1)

/-- `mangle_MemMove` (mangle.c:89-95). -/
def mangle_MemMove (r : Run) (printable : Bool) (g : Rng) : Run × Rng :=
  let off_from := rndRange g 0 0 (r.size - 1)
  let off_to := rndRange g 1 0 (r.size - 1)
  let len := rndRange g 2 0 r.size
  (mangle_Move r off_from off_to len, g.next 3)

/-- `mangle_Bytes` (mangle.c:97-110): fill an 8-byte stack word with random
(printable, if requested) bytes, then overwrite `1..8` bytes from it. -/
def mangle_Bytes (r : Run) (printable : Bool) (g : Rng) : Run × Rng :=
  let off := rndRange g 0 0 (r.size - 1)
  let word := if printable then rndBufP g 1 8 else rndBufR g 1 8
  let toCopy := rndRange g 9 1 8
  (mangle_Overwrite r word off toCopy, g.next 10)

/-- `mangle_Bit` (mangle.c:112-118): flip one random bit of one random byte,
then coerce that byte to printable if requested. -/
def mangle_Bit (r : Run) (printable : Bool) (g : Rng) : Run × Rng :=
  let off := rndRange g 0 0 (r.size - 1)
  let bit := rndRange g 1 0 7
  let b1 := setByte r.buf off (Nat.xor (r.buf off) (2 ^ bit) % 256)
  let b2 := if printable then turnRange b1 off 1 else b1
  ({ r with buf := b2 }, g.next 2)

/-- `mangle_DictionaryInsertNoCheck` (mangle.c:120-130): pick a dictionary
entry, pick an offset, `mangle_Inflate` by the entry length at that offset,
then overwrite the entry bytes there (no printable coercion of the entry). -/
def mangle_DictionaryInsertNoCheck (r : Run) (printable : Bool) (g : Rng) : Run × Rng :=
  let choice := rndRange g 0 0 (r.dict.length - 1)
  let str := r.dict.getD choice []
  let off := rndRange g 1 0 (r.size - 1)
  let rg := mangle_Inflate r off str.length printable (g.next 2)
  (mangle_Overwrite rg.1 str off str.length, rg.2)

/-- `mangle_DictionaryInsert` (mangle.c:132-138): fall back to `mangle_Bit` on
an empty dictionary. -/
def mangle_DictionaryInsert (r : Run) (printable : Bool) (g : Rng) : Run × Rng :=
  if r.dict.length = 0 then mangle_Bit r printable g
  else mangle_DictionaryInsertNoCheck r printable g

/-- `mangle_DictionaryNoCheck` (mangle.c:140-150): pick an offset, pick a
dictionary entry, overwrite its bytes there (no printable coercion). -/
def mangle_DictionaryNoCheck (r : Run) (g : Rng) : Run × Rng :=
  let off := rndRange g 0 0 (r.size - 1)
  let choice := rndRange g 1 0 (r.dict.length - 1)
  let str := r.dict.getD choice []
  (mangle_Overwrite r str off str.length, g.next 2)

/-- `mangle_Dictionary` (mangle.c:152-159): fall back to `mangle_Bit` on an
empty dictionary; note the printable flag is not forwarded otherwise. -/
def mangle_Dictionary (r : Run) (printable : Bool) (g : Rng) : Run × Rng :=
  if r.dict.length = 0 then mangle_Bit r printable g
  else mangle_DictionaryNoCheck r g

/-- `mangle_MemSetWithVal` (mangle.c:408-413). -/
def mangle_MemSetWithVal (r : Run) (val : Nat) (g : Rng) : Run × Rng :=
  let off := rndRange g 0 0 (r.size - 1)
  let sz := rndRange g 1 1 (r.size - off)
  ({ r with buf := fillRange r.buf off sz (val % 256) }, g.next 2)

/-- `mangle_MemSet` (mangle.c:415-418): the fill value is drawn first
(printable byte, or uniform in `[0, 255]`). -/
def mangle_MemSet (r : Run) (printable : Bool) (g : Rng) : Run × Rng :=
  let val := if printable then rndPrintableByte (g.cell 0) else rndRange g 0 0 255
  mangle_MemSetWithVal r val (g.next 1)

/-- `mangle_Random` (mangle.c:420-428). -/
def mangle_Random (r : Run) (printable : Bool) (g : Rng) : Run × Rng :=
  let off := rndRange g 0 0 (r.size - 1)
  let len := rndRange g 1 1 (r.size - off)
  let fill := if printable then rndBufP g 2 len else rndBufR g 2 len
  ({ r with buf := writeBytes r.buf off fill }, g.next (2 + len))

/-- The common body of the 2/4/8-byte cases of `mangle_AddSubWithRange`
(mangle.c:440-484), on the unsigned little-endian representation: the C code
reads a `w`-byte signed integer via `memcpy`, optionally byte-swaps, adds
`delta` with two's-complement wrap, optionally swaps back, and writes the
result back through `mangle_Overwrite`. -/
def addSubWidth (r : Run) (off w : Nat) (delta : Int) (g : Rng) : Run × Rng :=
  let u := readLE r.buf off w
  let coin := rnd64At g 0
  let v := if coin % 2 = 1 then (((u : Int) + delta).emod (2 ^ (8 * w))).toNat
           else bswapN w ((((bswapN w u : Int) + delta).emod (2 ^ (8 * w))).toNat)
  (mangle_Overwrite r (leBytes v w) off w, g.next 1)

/-- `mangle_AddSubWithRange` (mangle.c:430-490): `delta = rnd(0,8192) - 4096`;
dispatch on `varLen` (the `default` arm is `LOG_F`, a fatal abort, and is
unreachable from `mangle_AddSub`). -/
def mangle_AddSubWithRange (r : Run) (off varLen : Nat) (g : Rng) : Run × Rng :=
  let delta : Int := (rndRange g 0 0 8192 : Int) - 4096
  if varLen = 1 then
    ({ r with buf := setByte r.buf off (byteOfInt ((r.buf off : Int) + delta)) }, g.next 1)
  else if varLen = 2 then addSubWidth r off 2 delta (g.next 1)
  else if varLen = 4 then addSubWidth r off 4 delta (g.next 1)
  else if varLen = 8 then addSubWidth r off 8 delta (g.next 1)
  else (r, g.next 1)

/-- `mangle_AddSub` (mangle.c:492-505): `varLen ∈ {1,2,4,8}` uniform on the
exponent, forced to 1 when it does not fit; printable mode coerces the
`varLen` bytes at `off` afterwards. -/
def mangle_AddSub (r : Run) (printable : Bool) (g : Rng) : Run × Rng :=
  let off := rndRange g 0 0 (r.size - 1)
  let varLen0 := 2 ^ rndRange g 1 0 3
  let varLen := if r.size - off < varLen0 then 1 else varLen0
  let rg := mangle_AddSubWithRange r off varLen (g.next 2)
  let b2 := if printable then turnRange rg.1.buf off varLen else rg.1.buf
  ({ rg.1 with buf := b2 }, rg.2)

/-- `mangle_IncByte` (mangle.c:507-514): rotate within `[0x20, 0x7E]` by `+1`
(printable) or increment modulo 256.  The printable arithmetic is C `int`
arithmetic with truncated `%`, stored through a `uint8_t`. -/
def mangle_IncByte (r : Run) (printable : Bool) (g : Rng) : Run × Rng :=
  let off := rndRange g 0 0 (r.size - 1)
  let b := r.buf off
  let v := if printable then byteOfInt (((b : Int) - 32 + 1).tmod 95 + 32)
           else (b + 1) % 256
  ({ r with buf := setByte r.buf off v }, g.next 1)

/-- `mangle_DecByte` (mangle.c:516-523). -/
def mangle_DecByte (r : Run) (printable : Bool) (g : Rng) : Run × Rng :=
  let off := rndRange g 0 0 (r.size - 1)
  let b := r.buf off
  let v := if printable then byteOfInt (((b : Int) - 32 + 94).tmod 95 + 32)
           else byteOfInt ((b : Int) - 1)
  ({ r with buf := setByte r.buf off v }, g.next 1)

/-- `mangle_NegByte` (mangle.c:525-532): mirror within the printable range, or
bitwise NOT (`~b` on a byte is `255 - b`, i.e. `-b - 1` stored as `uint8_t`). -/
def mangle_NegByte (r : Run) (printable : Bool) (g : Rng) : Run × Rng :=
  let off := rndRange g 0 0 (r.size - 1)
  let b := r.buf off
  let v := if printable then byteOfInt (94 - ((b : Int) - 32) + 32)
           else byteOfInt (-(b : Int) - 1)
  ({ r with buf := setByte r.buf off v }, g.next 1)

/-- `mangle_CloneByte` (mangle.c:534-541): swap two random bytes. -/
def mangle_CloneByte (r : Run) (printable : Bool) (g : Rng) : Run × Rng :=
  let off1 := rndRange g 0 0 (r.size - 1)
  let off2 := rndRange g 1 0 (r.size - 1)
  let tmp := r.buf off1
  let b1 := setByte r.buf off1 (r.buf off2)
  let b2 := setByte b1 off2 tmp
  ({ r with buf := b2 }, g.next 2)

/-- `mangle_Expand` (mangle.c:543-548). -/
def mangle_Expand (r : Run) (printable : Bool) (g : Rng) : Run × Rng :=
  let off := rndRange g 0 0 (r.size - 1)
  let len := rndRange g 1 1 (r.size - off)
  mangle_Inflate r off len printable (g.next 2)

/-- `mangle_Shrink` (mangle.c:550-560): no-op if `size ≤ 1`; draw
`len ∈ [1, size-1]` and `off ∈ [0, len]`; shrink via `input_setSize` first and
only then call `mangle_Move(off+len, off, dynamicFileSz)` with the already
reduced `dynamicFileSz`. -/
def mangle_Shrink (r : Run) (printable : Bool) (g : Rng) : Run × Rng :=
  if r.size ≤ 1 then (r, g)
  else
    let len := rndRange g 0 1 (r.size - 1)
    let off := rndRange g 1 0 len
    let r1 := input_setSize r (r.size - len)
    (mangle_Move r1 (off + len) off r1.size, g.next 2)

/-- `mangle_Resize` (mangle.c:562-596): draw `v ∈ [0,16]`; `v = 0` redraws the
size uniformly from `[1, maxFileSz]`, `v ∈ [1,8]` grows by `v`, `v ∈ [9,16]`
adds `8 - v ∈ [-8,-1]` (signed `ssize_t` arithmetic); clamp to
`[1, maxFileSz]`; resize, and fill `[oldsz, newsz)` with fresh (printable, if
requested) random bytes exactly when growing. -/
def mangle_Resize (r : Run) (printable : Bool) (g : Rng) : Run × Rng :=
  let oldsz := r.size
  let v := rndRange g 0 0 16
  let n0 : Int := if v = 0 then (rndRange g 1 1 r.maxFileSz : Int)
                  else if v ≤ 8 then (oldsz : Int) + v
                  else (oldsz : Int) + 8 - v
  let k := if v = 0 then 2 else 1
  let n1 : Int := if n0 < 1 then 1 else n0
  let n2 : Int := if n1 > (r.maxFileSz : Int) then (r.maxFileSz : Int) else n1
  let newsz := n2.toNat
  let r1 := input_setSize r newsz
  let fill := if printable then rndBufP (g.next k) 0 (newsz - oldsz)
              else rndBufR (g.next k) 0 (newsz - oldsz)
  ({ r1 with buf := if newsz > oldsz then writeBytes r1.buf oldsz fill else r1.buf },
    g.next (if newsz > oldsz then k + (newsz - oldsz) else k))

/-- `mangle_ASCIIVal` (mangle.c:598-604): format a random signed 64-bit value
in decimal and overwrite its text at a random offset. -/
def mangle_ASCIIVal (r : Run) (printable : Bool) (g : Rng) : Run × Rng :=
  let text := asciiSigned64 (rnd64At g 0)
  let off := rndRange g 1 0 (r.size - 1)
  (mangle_Overwrite r text off text.length, g.next 2)

/-- The static table `mangleMagicVals` (mangle.c:162-397), transcribed entry by
entry: each record is the 8-byte `val` array and the entry `size`. -/
def mangleMagicVals : List (List Nat × Nat) := [
  -- 1B - No endianness
  ([0x00, 0x00, 0x00, 0x00, 0x00, 0x00, 0x00, 0x00], 1),
  ([0x01, 0x00, 0x00, 0x00, 0x00, 0x00, 0x00, 0x00], 1),
  ([0x02, 0x00, 0x00, 0x00, 0x00, 0x00, 0x00, 0x00], 1),
  ([0x03, 0x00, 0x00, 0x00, 0x00, 0x00, 0x00, 0x00], 1),
  ([0x04, 0x00, 0x00, 0x00, 0x00, 0x00, 0x00, 0x00], 1),
  ([0x05, 0x00, 0x00, 0x00, 0x00, 0x00, 0x00, 0x00], 1),
  ([0x06, 0x00, 0x00, 0x00, 0x00, 0x00, 0x00, 0x00], 1),
  ([0x07, 0x00, 0x00, 0x00, 0x00, 0x00, 0x00, 0x00], 1),
  ([0x08, 0x00, 0x00, 0x00, 0x00, 0x00, 0x00, 0x00], 1),
  ([0x09, 0x00, 0x00, 0x00, 0x00, 0x00, 0x00, 0x00], 1),
  ([0x0A, 0x00, 0x00, 0x00, 0x00, 0x00, 0x00, 0x00], 1),
  ([0x0B, 0x00, 0x00, 0x00, 0x00, 0x00, 0x00, 0x00], 1),
  ([0x0C, 0x00, 0x00, 0x00, 0x00, 0x00, 0x00, 0x00], 1),
  ([0x0D, 0x00, 0x00, 0x00, 0x00, 0x00, 0x00, 0x00], 1),
  ([0x0E, 0x00, 0x00, 0x00, 0x00, 0x00, 0x00, 0x00], 1),
  ([0x0F, 0x00, 0x00, 0x00, 0x00, 0x00, 0x00, 0x00], 1),
  ([0x10, 0x00, 0x00, 0x00, 0x00, 0x00, 0x00, 0x00], 1),
  ([0x20, 0x00, 0x00, 0x00, 0x00, 0x00, 0x00, 0x00], 1),
  ([0x40, 0x00, 0x00, 0x00, 0x00, 0x00, 0x00, 0x00], 1),
  ([0x7E, 0x00, 0x00, 0x00, 0x00, 0x00, 0x00, 0x00], 1),
  ([0x7F, 0x00, 0x00, 0x00, 0x00, 0x00, 0x00, 0x00], 1),
  ([0x80, 0x00, 0x00, 0x00, 0x00, 0x00, 0x00, 0x00], 1),
  ([0x81, 0x00, 0x00, 0x00, 0x00, 0x00, 0x00, 0x00], 1),
  ([0xC0, 0x00, 0x00, 0x00, 0x00, 0x00, 0x00, 0x00], 1),
  ([0xFE, 0x00, 0x00, 0x00, 0x00, 0x00, 0x00, 0x00], 1),
  ([0xFF, 0x00, 0x00, 0x00, 0x00, 0x00, 0x00, 0x00], 1),
  -- 2B - NE
  ([0x00, 0x00, 0x00, 0x00, 0x00, 0x00, 0x00, 0x00], 2),
  ([0x01, 0x01, 0x00, 0x00, 0x00, 0x00, 0x00, 0x00], 2),
  ([0x80, 0x80, 0x00, 0x00, 0x00, 0x00, 0x00, 0x00], 2),
  ([0xFF, 0xFF, 0x00, 0x00, 0x00, 0x00, 0x00, 0x00], 2),
  -- 2B - BE
  ([0x00, 0x01, 0x00, 0x00, 0x00, 0x00, 0x00, 0x00], 2),
  ([0x00, 0x02, 0x00, 0x00, 0x00, 0x00, 0x00, 0x00], 2),
  ([0x00, 0x03, 0x00, 0x00, 0x00, 0x00, 0x00, 0x00], 2),
  ([0x00, 0x04, 0x00, 0x00, 0x00, 0x00, 0x00, 0x00], 2),
  ([0x00, 0x05, 0x00, 0x00, 0x00, 0x00, 0x00, 0x00], 2),
  ([0x00, 0x06, 0x00, 0x00, 0x00, 0x00, 0x00, 0x00], 2),
  ([0x00, 0x07, 0x00, 0x00, 0x00, 0x00, 0x00, 0x00], 2),
  ([0x00, 0x08, 0x00, 0x00, 0x00, 0x00, 0x00, 0x00], 2),
  ([0x00, 0x09, 0x00, 0x00, 0x00, 0x00, 0x00, 0x00], 2),
  ([0x00, 0x0A, 0x00, 0x00, 0x00, 0x00, 0x00, 0x00], 2),
  ([0x00, 0x0B, 0x00, 0x00, 0x00, 0x00, 0x00, 0x00], 2),
  ([0x00, 0x0C, 0x00, 0x00, 0x00, 0x00, 0x00, 0x00], 2),
  ([0x00, 0x0D, 0x00, 0x00, 0x00, 0x00, 0x00, 0x00], 2),
  ([0x00, 0x0E, 0x00, 0x00, 0x00, 0x00, 0x00, 0x00], 2),
  ([0x00, 0x0F, 0x00, 0x00, 0x00, 0x00, 0x00, 0x00], 2),
  ([0x00, 0x10, 0x00, 0x00, 0x00, 0x00, 0x00, 0x00], 2),
  ([0x00, 0x20, 0x00, 0x00, 0x00, 0x00, 0x00, 0x00], 2),
  ([0x00, 0x40, 0x00, 0x00, 0x00, 0x00, 0x00, 0x00], 2),
  ([0x00, 0x7E, 0x00, 0x00, 0x00, 0x00, 0x00, 0x00], 2),
  ([0x00, 0x7F, 0x00, 0x00, 0x00, 0x00, 0x00, 0x00], 2),
  ([0x00, 0x80, 0x00, 0x00, 0x00, 0x00, 0x00, 0x00], 2),
  ([0x00, 0x81, 0x00, 0x00, 0x00, 0x00, 0x00, 0x00], 2),
  ([0x00, 0xC0, 0x00, 0x00, 0x00, 0x00, 0x00, 0x00], 2),
  ([0x00, 0xFE, 0x00, 0x00, 0x00, 0x00, 0x00, 0x00], 2),
  ([0x00, 0xFF, 0x00, 0x00, 0x00, 0x00, 0x00, 0x00], 2),
  ([0x7E, 0xFF, 0x00, 0x00, 0x00, 0x00, 0x00, 0x00], 2),
  ([0x7F, 0xFF, 0x00, 0x00, 0x00, 0x00, 0x00, 0x00], 2),
  ([0x80, 0x00, 0x00, 0x00, 0x00, 0x00, 0x00, 0x00], 2),
  ([0x80, 0x01, 0x00, 0x00, 0x00, 0x00, 0x00, 0x00], 2),
  ([0xFF, 0xFE, 0x00, 0x00, 0x00, 0x00, 0x00, 0x00], 2),
  -- 2B - LE
  ([0x00, 0x00, 0x00, 0x00, 0x00, 0x00, 0x00, 0x00], 2),
  ([0x01, 0x00, 0x00, 0x00, 0x00, 0x00, 0x00, 0x00], 2),
  ([0x02, 0x00, 0x00, 0x00, 0x00, 0x00, 0x00, 0x00], 2),
  ([0x03, 0x00, 0x00, 0x00, 0x00, 0x00, 0x00, 0x00], 2),
  ([0x04, 0x00, 0x00, 0x00, 0x00, 0x00, 0x00, 0x00], 2),
  ([0x05, 0x00, 0x00, 0x00, 0x00, 0x00, 0x00, 0x00], 2),
  ([0x06, 0x00, 0x00, 0x00, 0x00, 0x00, 0x00, 0x00], 2),
  ([0x07, 0x00, 0x00, 0x00, 0x00, 0x00, 0x00, 0x00], 2),
  ([0x08, 0x00, 0x00, 0x00, 0x00, 0x00, 0x00, 0x00], 2),
  ([0x09, 0x00, 0x00, 0x00, 0x00, 0x00, 0x00, 0x00], 2),
  ([0x0A, 0x00, 0x00, 0x00, 0x00, 0x00, 0x00, 0x00], 2),
  ([0x0B, 0x00, 0x00, 0x00, 0x00, 0x00, 0x00, 0x00], 2),
  ([0x0C, 0x00, 0x00, 0x00, 0x00, 0x00, 0x00, 0x00], 2),
  ([0x0D, 0x00, 0x00, 0x00, 0x00, 0x00, 0x00, 0x00], 2),
  ([0x0E, 0x00, 0x00, 0x00, 0x00, 0x00, 0x00, 0x00], 2),
  ([0x0F, 0x00, 0x00, 0x00, 0x00, 0x00, 0x00, 0x00], 2),
  ([0x10, 0x00, 0x00, 0x00, 0x00, 0x00, 0x00, 0x00], 2),
  ([0x20, 0x00, 0x00, 0x00, 0x00, 0x00, 0x00, 0x00], 2),
  ([0x40, 0x00, 0x00, 0x00, 0x00, 0x00, 0x00, 0x00], 2),
  ([0x7E, 0x00, 0x00, 0x00, 0x00, 0x00, 0x00, 0x00], 2),
  ([0x7F, 0x00, 0x00, 0x00, 0x00, 0x00, 0x00, 0x00], 2),
  ([0x80, 0x00, 0x00, 0x00, 0x00, 0x00, 0x00, 0x00], 2),
  ([0x81, 0x00, 0x00, 0x00, 0x00, 0x00, 0x00, 0x00], 2),
  ([0xC0, 0x00, 0x00, 0x00, 0x00, 0x00, 0x00, 0x00], 2),
  ([0xFE, 0x00, 0x00, 0x00, 0x00, 0x00, 0x00, 0x00], 2),
  ([0xFF, 0x00, 0x00, 0x00, 0x00, 0x00, 0x00, 0x00], 2),
  ([0xFF, 0x7E, 0x00, 0x00, 0x00, 0x00, 0x00, 0x00], 2),
  ([0xFF, 0x7F, 0x00, 0x00, 0x00, 0x00, 0x00, 0x00], 2),
  ([0x00, 0x80, 0x00, 0x00, 0x00, 0x00, 0x00, 0x00], 2),
  ([0x01, 0x80, 0x00, 0x00, 0x00, 0x00, 0x00, 0x00], 2),
  ([0xFE, 0xFF, 0x00, 0x00, 0x00, 0x00, 0x00, 0x00], 2),
  -- 4B - NE
  ([0x00, 0x00, 0x00, 0x00, 0x00, 0x00, 0x00, 0x00], 4),
  ([0x01, 0x01, 0x01, 0x01, 0x00, 0x00, 0x00, 0x00], 4),
  ([0x80, 0x80, 0x80, 0x80, 0x00, 0x00, 0x00, 0x00], 4),
  ([0xFF, 0xFF, 0xFF, 0xFF, 0x00, 0x00, 0x00, 0x00], 4),
  -- 4B - BE
  ([0x00, 0x00, 0x00, 0x01, 0x00, 0x00, 0x00, 0x00], 4),
  ([0x00, 0x00, 0x00, 0x02, 0x00, 0x00, 0x00, 0x00], 4),
  ([0x00, 0x00, 0x00, 0x03, 0x00, 0x00, 0x00, 0x00], 4),
  ([0x00, 0x00, 0x00, 0x04, 0x00, 0x00, 0x00, 0x00], 4),
  ([0x00, 0x00, 0x00, 0x05, 0x00, 0x00, 0x00, 0x00], 4),
  ([0x00, 0x00, 0x00, 0x06, 0x00, 0x00, 0x00, 0x00], 4),
  ([0x00, 0x00, 0x00, 0x07, 0x00, 0x00, 0x00, 0x00], 4),
  ([0x00, 0x00, 0x00, 0x08, 0x00, 0x00, 0x00, 0x00], 4),
  ([0x00, 0x00, 0x00, 0x09, 0x00, 0x00, 0x00, 0x00], 4),
  ([0x00, 0x00, 0x00, 0x0A, 0x00, 0x00, 0x00, 0x00], 4),
  ([0x00, 0x00, 0x00, 0x0B, 0x00, 0x00, 0x00, 0x00], 4),
  ([0x00, 0x00, 0x00, 0x0C, 0x00, 0x00, 0x00, 0x00], 4),
  ([0x00, 0x00, 0x00, 0x0D, 0x00, 0x00, 0x00, 0x00], 4),
  ([0x00, 0x00, 0x00, 0x0E, 0x00, 0x00, 0x00, 0x00], 4),
  ([0x00, 0x00, 0x00, 0x0F, 0x00, 0x00, 0x00, 0x00], 4),
  ([0x00, 0x00, 0x00, 0x10, 0x00, 0x00, 0x00, 0x00], 4),
  ([0x00, 0x00, 0x00, 0x20, 0x00, 0x00, 0x00, 0x00], 4),
  ([0x00, 0x00, 0x00, 0x40, 0x00, 0x00, 0x00, 0x00], 4),
  ([0x00, 0x00, 0x00, 0x7E, 0x00, 0x00, 0x00, 0x00], 4),
  ([0x00, 0x00, 0x00, 0x7F, 0x00, 0x00, 0x00, 0x00], 4),
  ([0x00, 0x00, 0x00, 0x80, 0x00, 0x00, 0x00, 0x00], 4),
  ([0x00, 0x00, 0x00, 0x81, 0x00, 0x00, 0x00, 0x00], 4),
  ([0x00, 0x00, 0x00, 0xC0, 0x00, 0x00, 0x00, 0x00], 4),
  ([0x00, 0x00, 0x00, 0xFE, 0x00, 0x00, 0x00, 0x00], 4),
  ([0x00, 0x00, 0x00, 0xFF, 0x00, 0x00, 0x00, 0x00], 4),
  ([0x7E, 0xFF, 0xFF, 0xFF, 0x00, 0x00, 0x00, 0x00], 4),
  ([0x7F, 0xFF, 0xFF, 0xFF, 0x00, 0x00, 0x00, 0x00], 4),
  ([0x80, 0x00, 0x00, 0x00, 0x00, 0x00, 0x00, 0x00], 4),
  ([0x80, 0x00, 0x00, 0x01, 0x00, 0x00, 0x00, 0x00], 4),
  ([0xFF, 0xFF, 0xFF, 0xFE, 0x00, 0x00, 0x00, 0x00], 4),
  -- 4B - LE
  ([0x00, 0x00, 0x00, 0x00, 0x00, 0x00, 0x00, 0x00], 4),
  ([0x01, 0x00, 0x00, 0x00, 0x00, 0x00, 0x00, 0x00], 4),
  ([0x02, 0x00, 0x00, 0x00, 0x00, 0x00, 0x00, 0x00], 4),
  ([0x03, 0x00, 0x00, 0x00, 0x00, 0x00, 0x00, 0x00], 4),
  ([0x04, 0x00, 0x00, 0x00, 0x00, 0x00, 0x00, 0x00], 4),
  ([0x05, 0x00, 0x00, 0x00, 0x00, 0x00, 0x00, 0x00], 4),
  ([0x06, 0x00, 0x00, 0x00, 0x00, 0x00, 0x00, 0x00], 4),
  ([0x07, 0x00, 0x00, 0x00, 0x00, 0x00, 0x00, 0x00], 4),
  ([0x08, 0x00, 0x00, 0x00, 0x00, 0x00, 0x00, 0x00], 4),
  ([0x09, 0x00, 0x00, 0x00, 0x00, 0x00, 0x00, 0x00], 4),
  ([0x0A, 0x00, 0x00, 0x00, 0x00, 0x00, 0x00, 0x00], 4),
  ([0x0B, 0x00, 0x00, 0x00, 0x00, 0x00, 0x00, 0x00], 4),
  ([0x0C, 0x00, 0x00, 0x00, 0x00, 0x00, 0x00, 0x00], 4),
  ([0x0D, 0x00, 0x00, 0x00, 0x00, 0x00, 0x00, 0x00], 4),
  ([0x0E, 0x00, 0x00, 0x00, 0x00, 0x00, 0x00, 0x00], 4),
  ([0x0F, 0x00, 0x00, 0x00, 0x00, 0x00, 0x00, 0x00], 4),
  ([0x10, 0x00, 0x00, 0x00, 0x00, 0x00, 0x00, 0x00], 4),
  ([0x20, 0x00, 0x00, 0x00, 0x00, 0x00, 0x00, 0x00], 4),
  ([0x40, 0x00, 0x00, 0x00, 0x00, 0x00, 0x00, 0x00], 4),
  ([0x7E, 0x00, 0x00, 0x00, 0x00, 0x00, 0x00, 0x00], 4),
  ([0x7F, 0x00, 0x00, 0x00, 0x00, 0x00, 0x00, 0x00], 4),
  ([0x80, 0x00, 0x00, 0x00, 0x00, 0x00, 0x00, 0x00], 4),
  ([0x81, 0x00, 0x00, 0x00, 0x00, 0x00, 0x00, 0x00], 4),
  ([0xC0, 0x00, 0x00, 0x00, 0x00, 0x00, 0x00, 0x00], 4),
  ([0xFE, 0x00, 0x00, 0x00, 0x00, 0x00, 0x00, 0x00], 4),
  ([0xFF, 0x00, 0x00, 0x00, 0x00, 0x00, 0x00, 0x00], 4),
  ([0xFF, 0xFF, 0xFF, 0x7E, 0x00, 0x00, 0x00, 0x00], 4),
  ([0xFF, 0xFF, 0xFF, 0x7F, 0x00, 0x00, 0x00, 0x00], 4),
  ([0x00, 0x00, 0x00, 0x80, 0x00, 0x00, 0x00, 0x00], 4),
  ([0x01, 0x00, 0x00, 0x80, 0x00, 0x00, 0x00, 0x00], 4),
  ([0xFE, 0xFF, 0xFF, 0xFF, 0x00, 0x00, 0x00, 0x00], 4),
  -- 8B - NE
  ([0x00, 0x00, 0x00, 0x00, 0x00, 0x00, 0x00, 0x00], 8),
  ([0x01, 0x01, 0x01, 0x01, 0x01, 0x01, 0x01, 0x01], 8),
  ([0x80, 0x80, 0x80, 0x80, 0x80, 0x80, 0x80, 0x80], 8),
  ([0xFF, 0xFF, 0xFF, 0xFF, 0xFF, 0xFF, 0xFF, 0xFF], 8),
  -- 8B - BE
  ([0x00, 0x00, 0x00, 0x00, 0x00, 0x00, 0x00, 0x01], 8),
  ([0x00, 0x00, 0x00, 0x00, 0x00, 0x00, 0x00, 0x02], 8),
  ([0x00, 0x00, 0x00, 0x00, 0x00, 0x00, 0x00, 0x03], 8),
  ([0x00, 0x00, 0x00, 0x00, 0x00, 0x00, 0x00, 0x04], 8),
  ([0x00, 0x00, 0x00, 0x00, 0x00, 0x00, 0x00, 0x05], 8),
  ([0x00, 0x00, 0x00, 0x00, 0x00, 0x00, 0x00, 0x06], 8),
  ([0x00, 0x00, 0x00, 0x00, 0x00, 0x00, 0x00, 0x07], 8),
  ([0x00, 0x00, 0x00, 0x00, 0x00, 0x00, 0x00, 0x08], 8),
  ([0x00, 0x00, 0x00, 0x00, 0x00, 0x00, 0x00, 0x09], 8),
  ([0x00, 0x00, 0x00, 0x00, 0x00, 0x00, 0x00, 0x0A], 8),
  ([0x00, 0x00, 0x00, 0x00, 0x00, 0x00, 0x00, 0x0B], 8),
  ([0x00, 0x00, 0x00, 0x00, 0x00, 0x00, 0x00, 0x0C], 8),
  ([0x00, 0x00, 0x00, 0x00, 0x00, 0x00, 0x00, 0x0D], 8),
  ([0x00, 0x00, 0x00, 0x00, 0x00, 0x00, 0x00, 0x0E], 8),
  ([0x00, 0x00, 0x00, 0x00, 0x00, 0x00, 0x00, 0x0F], 8),
  ([0x00, 0x00, 0x00, 0x00, 0x00, 0x00, 0x00, 0x10], 8),
  ([0x00, 0x00, 0x00, 0x00, 0x00, 0x00, 0x00, 0x20], 8),
  ([0x00, 0x00, 0x00, 0x00, 0x00, 0x00, 0x00, 0x40], 8),
  ([0x00, 0x00, 0x00, 0x00, 0x00, 0x00, 0x00, 0x7E], 8),
  ([0x00, 0x00, 0x00, 0x00, 0x00, 0x00, 0x00, 0x7F], 8),
  ([0x00, 0x00, 0x00, 0x00, 0x00, 0x00, 0x00, 0x80], 8),
  ([0x00, 0x00, 0x00, 0x00, 0x00, 0x00, 0x00, 0x81], 8),
  ([0x00, 0x00, 0x00, 0x00, 0x00, 0x00, 0x00, 0xC0], 8),
  ([0x00, 0x00, 0x00, 0x00, 0x00, 0x00, 0x00, 0xFE], 8),
  ([0x00, 0x00, 0x00, 0x00, 0x00, 0x00, 0x00, 0xFF], 8),
  ([0x7E, 0xFF, 0xFF, 0xFF, 0xFF, 0xFF, 0xFF, 0xFF], 8),
  ([0x7F, 0xFF, 0xFF, 0xFF, 0xFF, 0xFF, 0xFF, 0xFF], 8),
  ([0x80, 0x00, 0x00, 0x00, 0x00, 0x00, 0x00, 0x00], 8),
  ([0x80, 0x00, 0x00, 0x00, 0x00, 0x00, 0x00, 0x01], 8),
  ([0xFF, 0xFF, 0xFF, 0xFF, 0xFF, 0xFF, 0xFF, 0xFE], 8),
  -- 8B - LE
  ([0x00, 0x00, 0x00, 0x00, 0x00, 0x00, 0x00, 0x00], 8),
  ([0x01, 0x00, 0x00, 0x00, 0x00, 0x00, 0x00, 0x00], 8),
  ([0x02, 0x00, 0x00, 0x00, 0x00, 0x00, 0x00, 0x00], 8),
  ([0x03, 0x00, 0x00, 0x00, 0x00, 0x00, 0x00, 0x00], 8),
  ([0x04, 0x00, 0x00, 0x00, 0x00, 0x00, 0x00, 0x00], 8),
  ([0x05, 0x00, 0x00, 0x00, 0x00, 0x00, 0x00, 0x00], 8),
  ([0x06, 0x00, 0x00, 0x00, 0x00, 0x00, 0x00, 0x00], 8),
  ([0x07, 0x00, 0x00, 0x00, 0x00, 0x00, 0x00, 0x00], 8),
  ([0x08, 0x00, 0x00, 0x00, 0x00, 0x00, 0x00, 0x00], 8),
  ([0x09, 0x00, 0x00, 0x00, 0x00, 0x00, 0x00, 0x00], 8),
  ([0x0A, 0x00, 0x00, 0x00, 0x00, 0x00, 0x00, 0x00], 8),
  ([0x0B, 0x00, 0x00, 0x00, 0x00, 0x00, 0x00, 0x00], 8),
  ([0x0C, 0x00, 0x00, 0x00, 0x00, 0x00, 0x00, 0x00], 8),
  ([0x0D, 0x00, 0x00, 0x00, 0x00, 0x00, 0x00, 0x00], 8),
  ([0x0E, 0x00, 0x00, 0x00, 0x00, 0x00, 0x00, 0x00], 8),
  ([0x0F, 0x00, 0x00, 0x00, 0x00, 0x00, 0x00, 0x00], 8),
  ([0x10, 0x00, 0x00, 0x00, 0x00, 0x00, 0x00, 0x00], 8),
  ([0x20, 0x00, 0x00, 0x00, 0x00, 0x00, 0x00, 0x00], 8),
  ([0x40, 0x00, 0x00, 0x00, 0x00, 0x00, 0x00, 0x00], 8),
  ([0x7E, 0x00, 0x00, 0x00, 0x00, 0x00, 0x00, 0x00], 8),
  ([0x7F, 0x00, 0x00, 0x00, 0x00, 0x00, 0x00, 0x00], 8),
  ([0x80, 0x00, 0x00, 0x00, 0x00, 0x00, 0x00, 0x00], 8),
  ([0x81, 0x00, 0x00, 0x00, 0x00, 0x00, 0x00, 0x00], 8),
  ([0xC0, 0x00, 0x00, 0x00, 0x00, 0x00, 0x00, 0x00], 8),
  ([0xFE, 0x00, 0x00, 0x00, 0x00, 0x00, 0x00, 0x00], 8),
  ([0xFF, 0x00, 0x00, 0x00, 0x00, 0x00, 0x00, 0x00], 8),
  ([0xFF, 0xFF, 0xFF, 0xFF, 0xFF, 0xFF, 0xFF, 0x7E], 8),
  ([0xFF, 0xFF, 0xFF, 0xFF, 0xFF, 0xFF, 0xFF, 0x7F], 8),
  ([0x00, 0x00, 0x00, 0x00, 0x00, 0x00, 0x00, 0x80], 8),
  ([0x01, 0x00, 0x00, 0x00, 0x00, 0x00, 0x00, 0x80], 8),
  ([0xFE, 0xFF, 0xFF, 0xFF, 0xFF, 0xFF, 0xFF, 0xFF], 8)
]

/-- `mangle_Magic` (mangle.c:161-406): overwrite a random table entry at a
random offset; in printable mode, `util_turnToPrintable` is then applied to
the full entry width at `off` (with no clamping to `dynamicFileSz`). -/
def mangle_Magic (r : Run) (printable : Bool) (g : Rng) : Run × Rng :=
  let off := rndRange g 0 0 (r.size - 1)
  let choice := rndRange g 1 0 (mangleMagicVals.length - 1)
  let e := mangleMagicVals.getD choice ([], 0)
  let r1 := mangle_Overwrite r e.1 off e.2
  let b2 := if printable then turnRange r1.buf off e.2 else r1.buf
  ({ r1 with buf := b2 }, g.next 2)

/-- The type of a primitive operator, as stored in `mangleFuncs`. -/
abbrev Op := Run → Bool → Rng → Run × Rng

/-- The `mangleFuncs` operator table (mangle.c:607-624), in source order. -/
def mangleFuncs : List Op :=
  [mangle_Bit, mangle_Bytes, mangle_Magic, mangle_IncByte, mangle_DecByte, mangle_NegByte,
   mangle_AddSub, mangle_Dictionary, mangle_DictionaryInsert, mangle_MemMove, mangle_MemSet,
   mangle_Random, mangle_CloneByte, mangle_Expand, mangle_Shrink, mangle_ASCIIVal]

/-- One iteration of the `mangleContent` loop (mangle.c:634-637): draw an
operator index uniformly and invoke it with the printable flag. -/
def mangleStep (r : Run) (g : Rng) : Run × Rng :=
  let choice := rndRange g 0 0 (mangleFuncs.length - 1)
  (mangleFuncs.getD choice mangle_Bit) r r.only_printable (g.next 1)

/-- The stacked-mutation loop, iterated `changesCnt` times. -/
def mangleLoop : Nat → Run × Rng → Run × Rng
  | 0, s => s
  | k + 1, s => mangleLoop k (mangleStep s.1 s.2)

/-- `mangle_mangleContent` (mangle.c:606-638): return if
`run->mutationsPerRun == 0`; run `mangle_Resize` first; draw
`changesCnt ∈ [1, global->mutate.mutationsPerRun]` and stack that many
random operators. -/
def mangle_mangleContent (r : Run) (g : Rng) : Run × Rng :=
  if r.mutationsPerRun = 0 then (r, g)
  else
    let s1 := mangle_Resize r r.only_printable g
    let cnt := rndRange s1.2 0 1 r.mutateMutationsPerRun
    mangleLoop cnt (s1.1, s1.2.next 1)

/-- All seventeen operator entry points: `mangle_Resize` (which
`mangleContent` always runs first) followed by the sixteen `mangleFuncs`. -/
def allOps : List Op := mangle_Resize :: mangleFuncs

/-- The `k`-th operator among `allOps` (`mangle_Magic` sits at index 3). -/
def opAt (k : Fin 17) : Op := allOps.getD k.val mangle_Bit

/-- The offset `mangle_Magic` will draw from tape `g` on context `r`. -/
def magicOff (r : Run) (g : Rng) : Nat := rndRange g 0 0 (r.size - 1)

/-- The width of the table entry `mangle_Magic` will draw from tape `g`. -/
def magicWidth (g : Rng) : Nat :=
  (mangleMagicVals.getD (rndRange g 1 0 (mangleMagicVals.length - 1)) ([], 0)).2

/-- The drawn magic entry fits inside the logical buffer: in this case the
printable-mode `util_turnToPrintable` pass stays below `dynamicFileSz`. -/
def magicFits (r : Run) (g : Rng) : Prop := magicOff r g + magicWidth g ≤ r.size

instance (r : Run) (g : Rng) : Decidable (magicFits r g) :=
  inferInstanceAs (Decidable (_ ≤ _))

/-! ### Basic facts about the RNG draws and buffer primitives -/

theorem rndRange_lo (g : Rng) (k lo hi : Nat) : lo ≤ rndRange g k lo hi :=
  Nat.le_add_right _ _

theorem rndRange_le (g : Rng) (k lo hi : Nat) (h : lo ≤ hi) : rndRange g k lo hi ≤ hi := by
  unfold rndRange
  have hm : g.cell k % (hi + 1 - lo) < hi + 1 - lo := Nat.mod_lt _ (by omega)
  omega

theorem rndRange_lt_size (g : Rng) (k n : Nat) (h : 1 ≤ n) : rndRange g k 0 (n - 1) < n := by
  have := rndRange_le g k 0 (n - 1) (by omega)
  omega

theorem setByte_self (b : Nat → Nat) (i v : Nat) : setByte b i v i = v := by
  simp [setByte]

theorem setByte_other {i j : Nat} (b : Nat → Nat) (v : Nat) (h : j ≠ i) :
    setByte b i v j = b j := by
  simp [setByte, h]

theorem writeBytes_in {off j : Nat} (b : Nat → Nat) (src : List Nat)
    (h1 : off ≤ j) (h2 : j < off + src.length) :
    writeBytes b off src j = src.getD (j - off) 0 := by
  simp [writeBytes, h1, h2]

theorem writeBytes_out {off j : Nat} (b : Nat → Nat) (src : List Nat)
    (h : ¬(off ≤ j ∧ j < off + src.length)) : writeBytes b off src j = b j := by
  simp only [writeBytes, if_neg h]

theorem moveRange_in {a c n j : Nat} (b : Nat → Nat) (h1 : c ≤ j) (h2 : j < c + n) :
    moveRange b a c n j = b (a + (j - c)) := by
  simp [moveRange, h1, h2]

theorem moveRange_out {a c n j : Nat} (b : Nat → Nat) (h : ¬(c ≤ j ∧ j < c + n)) :
    moveRange b a c n j = b j := by
  simp only [moveRange, if_neg h]

theorem fillRange_in {o l v j : Nat} (b : Nat → Nat) (h1 : o ≤ j) (h2 : j < o + l) :
    fillRange b o l v j = v := by
  simp [fillRange, h1, h2]

theorem fillRange_out {o l v j : Nat} (b : Nat → Nat) (h : ¬(o ≤ j ∧ j < o + l)) :
    fillRange b o l v j = b j := by
  simp only [fillRange, if_neg h]

theorem turnRange_in {o l j : Nat} (b : Nat → Nat) (h1 : o ≤ j) (h2 : j < o + l) :
    turnRange b o l j = turnByte (b j) := by
  simp [turnRange, h1, h2]

theorem turnRange_out {o l j : Nat} (b : Nat → Nat) (h : ¬(o ≤ j ∧ j < o + l)) :
    turnRange b o l j = b j := by
  simp only [turnRange, if_neg h]

/-! ### Printability of the primitive writes -/

theorem turnByte_printable (b : Nat) : printableByte (turnByte b) := by
  unfold turnByte printableByte
  split
  · have : b % 95 < 95 := Nat.mod_lt _ (by omega)
    omega
  · next h =>
    push_neg at h
    omega

theorem rndPrintableByte_printable (t : Nat) : printableByte (rndPrintableByte t) := by
  unfold rndPrintableByte printableByte
  have : t % 95 < 95 := Nat.mod_lt _ (by omega)
  omega

theorem getD_mem_of_lt {α : Type} {l : List α} {i : Nat} (d : α) (h : i < l.length) :
    l.getD i d ∈ l := by
  induction l generalizing i with
  | nil => simp at h
  | cons a t ih =>
    cases i with
    | zero => simp
    | succ n =>
      simp only [List.getD_cons_succ]
      exact List.mem_cons_of_mem _ (ih (by simpa using h))

theorem printable_writeBytes {b : Nat → Nat} {src : List Nat} (off : Nat)
    (hb : ∀ j, printableByte (b j)) (hs : ∀ x ∈ src, printableByte x) :
    ∀ j, printableByte (writeBytes b off src j) := by
  intro j
  unfold writeBytes
  split
  · next h => exact hs _ (getD_mem_of_lt 0 (by omega))
  · exact hb j

theorem printable_moveRange {b : Nat → Nat} (a c n : Nat)
    (hb : ∀ j, printableByte (b j)) : ∀ j, printableByte (moveRange b a c n j) := by
  intro j
  unfold moveRange
  split
  · exact hb _
  · exact hb j

theorem printable_fillRange {b : Nat → Nat} {v : Nat} (o l : Nat)
    (hb : ∀ j, printableByte (b j)) (hv : printableByte v) :
    ∀ j, printableByte (fillRange b o l v j) := by
  intro j
  unfold fillRange
  split
  · exact hv
  · exact hb j

theorem printable_turnRange {b : Nat → Nat} (o l : Nat)
    (hb : ∀ j, printableByte (b j)) : ∀ j, printableByte (turnRange b o l j) := by
  intro j
  unfold turnRange
  split
  · exact turnByte_printable _
  · exact hb j

/-- If a buffer differs from a printable one only inside `[o, o + l)`, then
turning that window to printable makes the whole buffer printable. -/
theorem printable_turnRange_cover {b0 b1 : Nat → Nat} {o l : Nat}
    (hb0 : ∀ j, printableByte (b0 j))
    (hout : ∀ j, ¬(o ≤ j ∧ j < o + l) → b1 j = b0 j) :
    ∀ j, printableByte (turnRange b1 o l j) := by
  intro j
  unfold turnRange
  split
  · exact turnByte_printable _
  · next h =>
    rw [hout j h]
    exact hb0 j

theorem printable_setByte {b : Nat → Nat} {v : Nat} (i : Nat)
    (hb : ∀ j, printableByte (b j)) (hv : printableByte v) :
    ∀ j, printableByte (setByte b i v j) := by
  intro j
  unfold setByte
  split
  · exact hv
  · exact hb j

theorem rndBufP_length (g : Rng) (k len : Nat) : (rndBufP g k len).length = len := by
  simp [rndBufP]

theorem rndBufR_length (g : Rng) (k len : Nat) : (rndBufR g k len).length = len := by
  simp [rndBufR]

theorem rndBufP_printable (g : Rng) (k len : Nat) :
    ∀ x ∈ rndBufP g k len, printableByte x := by
  intro x hx
  simp only [rndBufP, List.mem_map] at hx
  obtain ⟨j, hj, rfl⟩ := hx
  exact rndPrintableByte_printable _

theorem decDigitsAux_digits (f : Nat) :
    ∀ n d, d ∈ decDigitsAux f n → 0x30 ≤ d ∧ d ≤ 0x39 := by
  induction f with
  | zero => intro n d h; simp [decDigitsAux] at h
  | succ f ih =>
    intro n d h
    unfold decDigitsAux at h
    split at h
    · next hn => simp at h; omega
    · next hn =>
      rcases List.mem_append.1 h with h | h
      · exact ih _ _ h
      · have : n % 10 < 10 := Nat.mod_lt _ (by omega)
        simp at h
        omega

theorem asciiSigned64_printable (u : Nat) : ∀ x ∈ asciiSigned64 u, printableByte x := by
  intro x hx
  unfold asciiSigned64 at hx
  split at hx
  · have := decDigitsAux_digits (u + 1) u x hx
    unfold printableByte
    omega
  · rcases List.mem_cons.1 hx with rfl | hx
    · unfold printableByte; omega
    · have := decDigitsAux_digits _ _ x hx
      unfold printableByte
      omega

/-! ### Shape preservation: every operator touches only `buf` and `size` -/

/-- Two contexts agree on everything except possibly `buf` and `size`. -/
def staticEq (r1 r2 : Run) : Prop :=
  r1.maxFileSz = r2.maxFileSz ∧ r1.dict = r2.dict ∧ r1.mutationsPerRun = r2.mutationsPerRun ∧
  r1.mutateMutationsPerRun = r2.mutateMutationsPerRun ∧ r1.only_printable = r2.only_printable

theorem staticEq_refl (r : Run) : staticEq r r := ⟨rfl, rfl, rfl, rfl, rfl⟩

theorem staticEq_trans {r1 r2 r3 : Run} (h1 : staticEq r1 r2) (h2 : staticEq r2 r3) :
    staticEq r1 r3 := by
  obtain ⟨a1, b1, c1, d1, e1⟩ := h1
  obtain ⟨a2, b2, c2, d2, e2⟩ := h2
  exact ⟨a1.trans a2, b1.trans b2, c1.trans c2, d1.trans d2, e1.trans e2⟩

theorem staticEq_setBuf (r : Run) (b : Nat → Nat) : staticEq { r with buf := b } r :=
  ⟨rfl, rfl, rfl, rfl, rfl⟩

theorem staticEq_setSize (r : Run) (n : Nat) : staticEq (input_setSize r n) r :=
  ⟨rfl, rfl, rfl, rfl, rfl⟩

theorem overwrite_staticEq (r : Run) (src : List Nat) (off sz : Nat) :
    staticEq (mangle_Overwrite r src off sz) r :=
  ⟨rfl, rfl, rfl, rfl, rfl⟩

theorem overwrite_size (r : Run) (src : List Nat) (off sz : Nat) :
    (mangle_Overwrite r src off sz).size = r.size := rfl

theorem move_staticEq (r : Run) (a c l : Nat) : staticEq (mangle_Move r a c l) r := by
  unfold mangle_Move
  split
  · exact staticEq_refl r
  · split
    · exact staticEq_refl r
    · exact staticEq_setBuf _ _

theorem move_size (r : Run) (a c l : Nat) : (mangle_Move r a c l).size = r.size := by
  unfold mangle_Move
  split
  · rfl
  · split
    · rfl
    · rfl

theorem inflate_staticEq (r : Run) (off len : Nat) (pr : Bool) (g : Rng) :
    staticEq (mangle_Inflate r off len pr g).1 r := by
  unfold mangle_Inflate
  split
  · exact staticEq_refl r
  · exact staticEq_trans (staticEq_setBuf _ _)
      (staticEq_trans (move_staticEq _ _ _ _) (staticEq_setSize _ _))

/-! ### Frame lemmas: which indices a primitive can touch -/

theorem overwrite_frame {r : Run} {src : List Nat} {off sz j : Nat}
    (hoff : off ≤ r.size) (hj : r.size ≤ j) :
    (mangle_Overwrite r src off sz).buf j = r.buf j := by
  simp only [mangle_Overwrite]
  apply writeBytes_out
  rw [List.length_take]
  split <;> omega

/-- `mangle_Move` never touches any index at or beyond `size - 1` (the `-1`
clamps keep even the final byte of the buffer intact). -/
theorem move_frame {r : Run} {a c l j : Nat} (hj : r.size - 1 ≤ j) :
    (mangle_Move r a c l).buf j = r.buf j := by
  unfold mangle_Move
  split
  · rfl
  · split
    · rfl
    · next h1 h2 =>
      apply moveRange_out
      push_neg at h1 h2
      rintro ⟨hc1, hc2⟩
      revert hc2
      split_ifs <;> omega

theorem inflate_size (r : Run) (off len : Nat) (pr : Bool) (g : Rng) :
    (mangle_Inflate r off len pr g).1.size =
      if r.size ≥ r.maxFileSz then r.size
      else r.size + (if len > r.maxFileSz - r.size then r.maxFileSz - r.size else len) := by
  unfold mangle_Inflate
  split
  · rfl
  · show (mangle_Move _ _ _ _).size = _
    rw [move_size]
    rfl

theorem inflate_rng (r : Run) (off len : Nat) (pr : Bool) (g : Rng) :
    (mangle_Inflate r off len pr g).2 =
      if r.size ≥ r.maxFileSz then g
      else g.next (if len > r.maxFileSz - r.size then r.maxFileSz - r.size else len) := by
  unfold mangle_Inflate
  split
  · rfl
  · rfl

theorem inflate_frame {r : Run} {off len : Nat} {pr : Bool} {g : Rng}
    (hoff : off ≤ r.size) :
    ∀ j, (mangle_Inflate r off len pr g).1.size ≤ j →
      (mangle_Inflate r off len pr g).1.buf j = r.buf j := by
  intro j hj
  rw [inflate_size] at hj
  unfold mangle_Inflate
  split
  · rfl
  · next h =>
    rw [if_neg h] at hj
    set len1 := if len > r.maxFileSz - r.size then r.maxFileSz - r.size else len with hlen1
    show writeBytes _ off (if pr then rndBufP g 0 len1 else rndBufR g 0 len1) j = r.buf j
    rw [writeBytes_out]
    · show (mangle_Move (input_setSize r (r.size + len1)) _ _ _).buf j = r.buf j
      rw [move_frame]
      · rfl
      · show (input_setSize r (r.size + len1)).size - 1 ≤ j
        show r.size + len1 - 1 ≤ j
        omega
    · split
      · rw [rndBufP_length]
        omega
      · rw [rndBufR_length]
        omega

/-! ### Arithmetic helpers for the byte-level operators -/

theorem tmodNat (m n : Nat) : Int.tmod (m : Int) (n : Int) = ((m % n : Nat) : Int) :=
  (Int.ofNat_tmod m n).symm

theorem byteOfInt_natCast (n : Nat) (h : n < 256) : byteOfInt (n : Int) = n := by
  unfold byteOfInt
  rw [Int.emod_eq_of_lt (by omega) (by omega)]
  simp

/-- The printable rotate `(b - 32 + d) % 95 + 32` of `mangle_IncByte` /
`mangle_DecByte` stays printable on printable input. -/
theorem printable_rotate (b d : Nat) (hb : printableByte b) :
    printableByte (byteOfInt (((b : Int) - 32 + d).tmod 95 + 32)) := by
  obtain ⟨h1, h2⟩ := hb
  have h : ((b : Int) - 32 + d) = ((b - 32 + d : Nat) : Int) := by push_cast; omega
  have h95 : (95 : Int) = ((95 : Nat) : Int) := by norm_num
  rw [h, h95, tmodNat]
  have hlt : (b - 32 + d) % 95 < 95 := Nat.mod_lt _ (by omega)
  have hc : (((b - 32 + d) % 95 : Nat) : Int) + 32 = (((b - 32 + d) % 95 + 32 : Nat) : Int) := by
    push_cast; ring
  rw [hc, byteOfInt_natCast _ (by omega)]
  exact ⟨by omega, by omega⟩

/-- The printable mirror `94 - (b - 32) + 32` of `mangle_NegByte` stays
printable on printable input. -/
theorem printable_mirror (b : Nat) (hb : printableByte b) :
    printableByte (byteOfInt (94 - ((b : Int) - 32) + 32)) := by
  obtain ⟨h1, h2⟩ := hb
  have h : (94 - ((b : Int) - 32) + 32) = ((158 - b : Nat) : Int) := by omega
  rw [h, byteOfInt_natCast _ (by omega)]
  exact ⟨by omega, by omega⟩

theorem leBytes_length (v n : Nat) : (leBytes v n).length = n := by
  induction n generalizing v with
  | zero => rfl
  | succ n ih => simp [leBytes, ih]

/-! ### More compound-primitive facts -/

theorem move_printable {r : Run} (a c l : Nat) (hb : bufPrintable r) :
    bufPrintable (mangle_Move r a c l) := by
  unfold mangle_Move
  split
  · exact hb
  · split
    · exact hb
    · exact printable_moveRange _ _ _ hb

theorem overwrite_printable {r : Run} {src : List Nat} (off sz : Nat)
    (hb : bufPrintable r) (hs : ∀ x ∈ src, printableByte x) :
    bufPrintable (mangle_Overwrite r src off sz) :=
  printable_writeBytes off hb fun x hx => hs x (List.take_subset _ _ hx)

theorem inflate_printable {r : Run} (off len : Nat) (g : Rng) (hb : bufPrintable r) :
    bufPrintable (mangle_Inflate r off len true g).1 := by
  unfold mangle_Inflate
  split
  · exact hb
  · exact printable_writeBytes off (move_printable _ _ _ hb) (rndBufP_printable _ _ _)

/-- Bytes written by `mangle_Overwrite` stay inside `[off, off + sz)` (writes
beyond the clamp or past the source length never happen). -/
theorem overwrite_out {r : Run} {src : List Nat} {off sz j : Nat}
    (hj : ¬(off ≤ j ∧ j < off + sz)) :
    (mangle_Overwrite r src off sz).buf j = r.buf j := by
  simp only [mangle_Overwrite]
  apply writeBytes_out
  rw [List.length_take]
  split <;> omega

theorem dict_entry_printable {r : Run} (hd : dictPrintable r) (c : Nat) :
    ∀ x ∈ r.dict.getD c [], printableByte x := by
  intro x hx
  by_cases h : c < r.dict.length
  · exact hd _ (getD_mem_of_lt _ h) x hx
  · rw [List.getD_eq_default _ _ (by omega)] at hx
    simp at hx

/-! ### Non-interference helpers: results below `size` depend only on bytes
below `size` -/

theorem moveRange_ni {b1 b2 : Nat → Nat} {n : Nat} {a c L : Nat}
    (hag : ∀ i, i < n → b2 i = b1 i) (hbound : a + L ≤ n) :
    ∀ i, i < n → moveRange b2 a c L i = moveRange b1 a c L i := by
  intro i hi
  unfold moveRange
  split
  · next h => exact hag _ (by omega)
  · exact hag i hi

theorem move_ni {r r2 : Run} (a c l : Nat) (hs : r2.size = r.size)
    (hag : ∀ i, i < r.size → r2.buf i = r.buf i) :
    ∀ i, i < r.size → (mangle_Move r2 a c l).buf i = (mangle_Move r a c l).buf i := by
  intro i hi
  unfold mangle_Move
  rw [hs]
  split
  · exact hag i hi
  · split
    · exact hag i hi
    · next h1 h2 =>
      push_neg at h1 h2
      exact moveRange_ni hag (by split_ifs <;> omega) i hi

theorem readLE_congr {b1 b2 : Nat → Nat} {off : Nat} (w : Nat)
    (hag : ∀ j, off ≤ j → j < off + w → b2 j = b1 j) :
    readLE b2 off w = readLE b1 off w := by
  induction w generalizing off with
  | zero => rfl
  | succ n ih =>
    unfold readLE
    rw [hag off (le_refl _) (by omega), ih fun j hj1 hj2 => hag j (by omega) (by omega)]

/-! ### Per-operator bookkeeping: static fields, size invariant, printability -/

/-- Bookkeeping invariant of one operator invocation: static fields are
untouched; `1 ≤ size ≤ maxFileSz` is preserved; printable mode maps fully
printable contexts with printable dictionaries to printable buffers. -/
def OpGood (f : Op) : Prop :=
  ∀ (r : Run) (pr : Bool) (g : Rng),
    staticEq (f r pr g).1 r ∧
    (1 ≤ r.size → r.size ≤ r.maxFileSz →
      1 ≤ (f r pr g).1.size ∧ (f r pr g).1.size ≤ r.maxFileSz) ∧
    (pr = true → bufPrintable r → dictPrintable r → bufPrintable (f r pr g).1)

theorem opGood_Bit : OpGood mangle_Bit := by
  intro r pr g
  refine ⟨staticEq_setBuf _ _, fun h1 h2 => ⟨h1, h2⟩, fun hpr hb hd => ?_⟩
  subst hpr
  intro i
  show printableByte (turnRange (setByte r.buf _ _) _ 1 i)
  exact printable_turnRange_cover hb (fun j hj => setByte_other _ _ (by omega)) i

theorem opGood_Bytes : OpGood mangle_Bytes := by
  intro r pr g
  refine ⟨overwrite_staticEq _ _ _ _, fun h1 h2 => ⟨h1, h2⟩, fun hpr hb hd => ?_⟩
  subst hpr
  exact overwrite_printable _ _ hb (rndBufP_printable _ _ _)

theorem opGood_Magic : OpGood mangle_Magic := by
  intro r pr g
  refine ⟨staticEq_trans (staticEq_setBuf _ _) (overwrite_staticEq _ _ _ _),
    fun h1 h2 => ⟨h1, h2⟩, fun hpr hb hd => ?_⟩
  subst hpr
  intro i
  show printableByte (turnRange (mangle_Overwrite r _ _ _).buf _ _ i)
  exact printable_turnRange_cover hb (fun j hj => overwrite_out hj) i

theorem opGood_IncByte : OpGood mangle_IncByte := by
  intro r pr g
  refine ⟨staticEq_setBuf _ _, fun h1 h2 => ⟨h1, h2⟩, fun hpr hb hd => ?_⟩
  subst hpr
  exact printable_setByte _ hb (printable_rotate _ 1 (hb _))

theorem opGood_DecByte : OpGood mangle_DecByte := by
  intro r pr g
  refine ⟨staticEq_setBuf _ _, fun h1 h2 => ⟨h1, h2⟩, fun hpr hb hd => ?_⟩
  subst hpr
  exact printable_setByte _ hb (printable_rotate _ 94 (hb _))

theorem opGood_NegByte : OpGood mangle_NegByte := by
  intro r pr g
  refine ⟨staticEq_setBuf _ _, fun h1 h2 => ⟨h1, h2⟩, fun hpr hb hd => ?_⟩
  subst hpr
  exact printable_setByte _ hb (printable_mirror _ (hb _))

theorem opGood_CloneByte : OpGood mangle_CloneByte := by
  intro r pr g
  refine ⟨staticEq_setBuf _ _, fun h1 h2 => ⟨h1, h2⟩, fun hpr hb hd => ?_⟩
  exact printable_setByte _ (printable_setByte _ hb (hb _)) (hb _)

theorem opGood_MemMove : OpGood mangle_MemMove := by
  intro r pr g
  refine ⟨move_staticEq _ _ _ _, fun h1 h2 => ?_, fun hpr hb hd => ?_⟩
  · rw [show (mangle_MemMove r pr g).1.size = r.size from move_size _ _ _ _]
    exact ⟨h1, h2⟩
  · exact move_printable _ _ _ hb

theorem opGood_MemSet : OpGood mangle_MemSet := by
  intro r pr g
  refine ⟨staticEq_setBuf _ _, fun h1 h2 => ⟨h1, h2⟩, fun hpr hb hd => ?_⟩
  subst hpr
  refine printable_fillRange _ _ hb ?_
  show printableByte (rndPrintableByte (g.cell 0) % 256)
  have hp := rndPrintableByte_printable (g.cell 0)
  have : rndPrintableByte (g.cell 0) % 256 = rndPrintableByte (g.cell 0) :=
    Nat.mod_eq_of_lt (by obtain ⟨a, b⟩ := hp; omega)
  rw [this]
  exact hp

theorem opGood_Random : OpGood mangle_Random := by
  intro r pr g
  refine ⟨staticEq_setBuf _ _, fun h1 h2 => ⟨h1, h2⟩, fun hpr hb hd => ?_⟩
  subst hpr
  exact printable_writeBytes _ hb (rndBufP_printable _ _ _)

theorem opGood_ASCIIVal : OpGood mangle_ASCIIVal := by
  intro r pr g
  refine ⟨overwrite_staticEq _ _ _ _, fun h1 h2 => ⟨h1, h2⟩, fun hpr hb hd => ?_⟩
  exact overwrite_printable _ _ hb (asciiSigned64_printable _)

theorem opGood_Dictionary : OpGood mangle_Dictionary := by
  intro r pr g
  unfold mangle_Dictionary
  split
  · exact opGood_Bit r pr g
  · refine ⟨overwrite_staticEq _ _ _ _, fun h1 h2 => ⟨h1, h2⟩, fun hpr hb hd => ?_⟩
    exact overwrite_printable _ _ hb (dict_entry_printable hd _)

theorem addsubWR_staticEq (r : Run) (off w : Nat) (g : Rng) :
    staticEq (mangle_AddSubWithRange r off w g).1 r := by
  unfold mangle_AddSubWithRange
  split_ifs <;> exact staticEq_setBuf _ _

theorem addsubWR_size (r : Run) (off w : Nat) (g : Rng) :
    (mangle_AddSubWithRange r off w g).1.size = r.size := by
  unfold mangle_AddSubWithRange
  split_ifs <;> rfl

theorem addsubWR_out {r : Run} {off w : Nat} {g : Rng} {j : Nat}
    (hw : 1 ≤ w) (hj : ¬(off ≤ j ∧ j < off + w)) :
    (mangle_AddSubWithRange r off w g).1.buf j = r.buf j := by
  unfold mangle_AddSubWithRange
  split_ifs with e1 e2 e4 e8
  · subst e1
    exact setByte_other _ _ (by omega)
  · subst e2
    exact overwrite_out hj
  · subst e4
    exact overwrite_out hj
  · subst e8
    exact overwrite_out hj
  · rfl

theorem opGood_AddSub : OpGood mangle_AddSub := by
  intro r pr g
  refine ⟨staticEq_trans (staticEq_setBuf _ _) (addsubWR_staticEq _ _ _ _),
    fun h1 h2 => ?_, fun hpr hb hd => ?_⟩
  · rw [show (mangle_AddSub r pr g).1.size = r.size from addsubWR_size _ _ _ _]
    exact ⟨h1, h2⟩
  · subst hpr
    intro i
    show printableByte (turnRange (mangle_AddSubWithRange r _ _ _).1.buf _ _ i)
    refine printable_turnRange_cover hb (fun j hj => addsubWR_out ?_ hj) i
    split_ifs
    · exact le_refl 1
    · exact Nat.one_le_two_pow

theorem inflate_size_bounds {r : Run} (off len : Nat) (pr : Bool) (g : Rng)
    (h2 : r.size ≤ r.maxFileSz) :
    r.size ≤ (mangle_Inflate r off len pr g).1.size ∧
      (mangle_Inflate r off len pr g).1.size ≤ r.maxFileSz := by
  rw [inflate_size]
  split_ifs <;> omega

theorem opGood_DictionaryInsert : OpGood mangle_DictionaryInsert := by
  intro r pr g
  unfold mangle_DictionaryInsert
  split
  · exact opGood_Bit r pr g
  · unfold mangle_DictionaryInsertNoCheck
    refine ⟨staticEq_trans (overwrite_staticEq _ _ _ _) (inflate_staticEq _ _ _ _ _),
      fun h1 h2 => ?_, fun hpr hb hd => ?_⟩
    · refine ⟨?_, ?_⟩
      · show 1 ≤ (mangle_Inflate r _ _ pr (g.next 2)).1.size
        exact le_trans h1 (inflate_size_bounds _ _ _ _ h2).1
      · show (mangle_Inflate r _ _ pr (g.next 2)).1.size ≤ r.maxFileSz
        exact (inflate_size_bounds _ _ _ _ h2).2
    · subst hpr
      exact overwrite_printable _ _ (inflate_printable _ _ _ hb) (dict_entry_printable hd _)

theorem opGood_Expand : OpGood mangle_Expand := by
  intro r pr g
  refine ⟨inflate_staticEq _ _ _ _ _, fun h1 h2 => ?_, fun hpr hb hd => ?_⟩
  · exact ⟨le_trans h1 (inflate_size_bounds _ _ _ _ h2).1, (inflate_size_bounds _ _ _ _ h2).2⟩
  · subst hpr
    exact inflate_printable _ _ _ hb

theorem opGood_Shrink : OpGood mangle_Shrink := by
  intro r pr g
  unfold mangle_Shrink
  split
  · exact ⟨staticEq_refl _, fun h1 h2 => ⟨h1, h2⟩, fun hpr hb hd => hb⟩
  · next h =>
    refine ⟨staticEq_trans (move_staticEq _ _ _ _) (staticEq_setSize _ _),
      fun h1 h2 => ?_, fun hpr hb hd => ?_⟩
    · have hhi := rndRange_le g 0 1 (r.size - 1) (by omega)
      refine ⟨?_, ?_⟩
      · show 1 ≤ (mangle_Move _ _ _ _).size
        rw [move_size]
        show 1 ≤ r.size - rndRange g 0 1 (r.size - 1)
        omega
      · show (mangle_Move _ _ _ _).size ≤ r.maxFileSz
        rw [move_size]
        show r.size - rndRange g 0 1 (r.size - 1) ≤ r.maxFileSz
        omega
    · exact move_printable _ _ _ hb

theorem printable_ite {c : Prop} [Decidable c] {b1 b2 : Nat → Nat}
    (h1 : ∀ j, printableByte (b1 j)) (h2 : ∀ j, printableByte (b2 j)) :
    ∀ j, printableByte ((if c then b1 else b2) j) := by
  intro j
  split
  · exact h1 j
  · exact h2 j

theorem resize_size (r : Run) (pr : Bool) (g : Rng) (hm : 1 ≤ r.maxFileSz) :
    1 ≤ (mangle_Resize r pr g).1.size ∧ (mangle_Resize r pr g).1.size ≤ r.maxFileSz := by
  show 1 ≤ (Int.toNat _) ∧ (Int.toNat _) ≤ r.maxFileSz
  split_ifs <;> omega

theorem opGood_Resize : OpGood mangle_Resize := by
  intro r pr g
  refine ⟨staticEq_trans (staticEq_setBuf _ _) (staticEq_setSize _ _),
    fun h1 h2 => resize_size r pr g (by omega), fun hpr hb hd => ?_⟩
  subst hpr
  exact printable_ite (printable_writeBytes _ hb (rndBufP_printable _ _ _)) hb

theorem opGood_allOps : ∀ f ∈ allOps, OpGood f := by
  intro f hf
  simp only [allOps, mangleFuncs, List.mem_cons, List.not_mem_nil, or_false] at hf
  rcases hf with rfl | rfl | rfl | rfl | rfl | rfl | rfl | rfl | rfl | rfl | rfl | rfl | rfl |
    rfl | rfl | rfl | rfl
  · exact opGood_Resize
  · exact opGood_Bit
  · exact opGood_Bytes
  · exact opGood_Magic
  · exact opGood_IncByte
  · exact opGood_DecByte
  · exact opGood_NegByte
  · exact opGood_AddSub
  · exact opGood_Dictionary
  · exact opGood_DictionaryInsert
  · exact opGood_MemMove
  · exact opGood_MemSet
  · exact opGood_Random
  · exact opGood_CloneByte
  · exact opGood_Expand
  · exact opGood_Shrink
  · exact opGood_ASCIIVal

theorem opGood_getD (n : Nat) : OpGood (mangleFuncs.getD n mangle_Bit) := by
  by_cases h : n < mangleFuncs.length
  · exact opGood_allOps _ (List.mem_cons_of_mem _ (getD_mem_of_lt _ h))
  · rw [List.getD_eq_default _ _ (by omega)]
    exact opGood_Bit

theorem opGood_opAt (k : Fin 17) : OpGood (opAt k) := by
  unfold opAt
  by_cases h : k.val < allOps.length
  · exact opGood_allOps _ (getD_mem_of_lt _ h)
  · rw [List.getD_eq_default _ _ (by omega)]
    exact opGood_Bit

/-! ### The stacked-mutation loop preserves the bookkeeping invariant -/

theorem mangleStep_good (r : Run) (g : Rng) :
    staticEq (mangleStep r g).1 r ∧
    (1 ≤ r.size → r.size ≤ r.maxFileSz →
      1 ≤ (mangleStep r g).1.size ∧ (mangleStep r g).1.size ≤ r.maxFileSz) ∧
    (r.only_printable = true → bufPrintable r → dictPrintable r →
      bufPrintable (mangleStep r g).1) := by
  obtain ⟨h1, h2, h3⟩ :=
    opGood_getD (rndRange g 0 0 (mangleFuncs.length - 1)) r r.only_printable (g.next 1)
  exact ⟨h1, h2, h3⟩

theorem mangleLoop_good (k : Nat) :
    ∀ (r : Run) (g : Rng),
      staticEq (mangleLoop k (r, g)).1 r ∧
      (1 ≤ r.size → r.size ≤ r.maxFileSz →
        1 ≤ (mangleLoop k (r, g)).1.size ∧ (mangleLoop k (r, g)).1.size ≤ r.maxFileSz) ∧
      (r.only_printable = true → bufPrintable r → dictPrintable r →
        bufPrintable (mangleLoop k (r, g)).1) := by
  induction k with
  | zero => exact fun r g => ⟨staticEq_refl r, fun h1 h2 => ⟨h1, h2⟩, fun hp hb hd => hb⟩
  | succ k ih =>
    intro r g
    obtain ⟨s1, s2, s3⟩ := mangleStep_good r g
    obtain ⟨i1, i2, i3⟩ := ih (mangleStep r g).1 (mangleStep r g).2
    have hloop : mangleLoop (k + 1) (r, g) =
        mangleLoop k ((mangleStep r g).1, (mangleStep r g).2) := rfl
    rw [hloop]
    refine ⟨staticEq_trans i1 s1, fun h1 h2 => ?_, fun hp hb hd => ?_⟩
    · obtain ⟨a1, a2⟩ := s2 h1 h2
      have hmax : (mangleStep r g).1.maxFileSz = r.maxFileSz := s1.1
      obtain ⟨b1, b2⟩ := i2 a1 (by rw [hmax]; exact a2)
      rw [hmax] at b2
      exact ⟨b1, b2⟩
    · refine i3 ?_ ?_ ?_
      · rw [s1.2.2.2.2]
        exact hp
      · exact s3 hp hb hd
      · intro t ht
        rw [s1.2.1] at ht
        exact hd t ht

theorem mangleContent_good (r : Run) (g : Rng) :
    staticEq (mangle_mangleContent r g).1 r ∧
    (1 ≤ r.size → r.size ≤ r.maxFileSz →
      1 ≤ (mangle_mangleContent r g).1.size ∧
        (mangle_mangleContent r g).1.size ≤ r.maxFileSz) ∧
    (r.only_printable = true → bufPrintable r → dictPrintable r →
      bufPrintable (mangle_mangleContent r g).1) := by
  unfold mangle_mangleContent
  split
  · exact ⟨staticEq_refl r, fun h1 h2 => ⟨h1, h2⟩, fun hp hb hd => hb⟩
  · obtain ⟨r1, r2, r3⟩ := opGood_Resize r r.only_printable g
    obtain ⟨l1, l2, l3⟩ := mangleLoop_good
      (rndRange (mangle_Resize r r.only_printable g).2 0 1 r.mutateMutationsPerRun)
      (mangle_Resize r r.only_printable g).1 ((mangle_Resize r r.only_printable g).2.next 1)
    refine ⟨staticEq_trans l1 r1, fun h1 h2 => ?_, fun hp hb hd => ?_⟩
    · obtain ⟨a1, a2⟩ := r2 h1 h2
      have hmax : (mangle_Resize r r.only_printable g).1.maxFileSz = r.maxFileSz := r1.1
      obtain ⟨b1, b2⟩ := l2 a1 (by rw [hmax]; exact a2)
      rw [hmax] at b2
      exact ⟨b1, b2⟩
    · refine l3 ?_ ?_ ?_
      · rw [r1.2.2.2.2]
        exact hp
      · exact r3 hp hb hd
      · intro t ht
        rw [r1.2.1] at ht
        exact hd t ht

/-! ### Concrete contexts and tapes used by witnesses and counterexamples -/

/-- A buffer holding the bytes of `l` (zero beyond them). -/
def bufOf (l : List Nat) : Nat → Nat := fun i => l.getD i 0

/-- The all-zero RNG tape. -/
def gZero : Rng := ⟨fun _ => 0, 0⟩

/-- A printable one-byte context whose dictionary holds the single
non-printable word `[0x00]`. -/
def rC1 : Run :=
  { buf := fun _ => 0x41, size := 1, maxFileSz := 1, dict := [[0x00]],
    mutationsPerRun := 1, mutateMutationsPerRun := 1, only_printable := true }

/-- A printable one-byte context with an empty dictionary. -/
def rEmptyDict : Run :=
  { buf := fun _ => 0x41, size := 1, maxFileSz := 1, dict := [],
    mutationsPerRun := 1, mutateMutationsPerRun := 1, only_printable := true }

/-! ### Claim theorems -/

/-- C1, counterexample: on a fully printable context in printable mode, the
`Dictionary` operator copies the raw dictionary word `[0x00]` into the buffer,
so the post-buffer holds the non-printable byte `0x00` at index `0 < size`.
The claim fails for dictionaries holding non-printable bytes. -/
theorem C1_counterexample :
    bufPrintable rC1 ∧ rC1.only_printable = true ∧
    (mangle_Dictionary rC1 true gZero).1.size = 1 ∧
    (mangle_Dictionary rC1 true gZero).1.buf 0 = 0x00 ∧
    ¬ printableByte ((mangle_Dictionary rC1 true gZero).1.buf 0) := by
  refine ⟨fun i => show printableByte 0x41 by decide, rfl, rfl, by decide, by decide⟩

/-- C1 (amended): in printable mode, if every byte of the backing buffer is
printable and additionally every byte of every dictionary entry is printable,
then after any single operator invocation (`mangle_Resize` or any of the
sixteen `mangleFuncs`, the dictionary operators included) and after a whole
`mangle_mangleContent` session, every buffer byte below the resulting size is
printable. -/
theorem C1_printable_preserved :
    (∀ (k : Fin 17) (r : Run) (g : Rng), bufPrintable r → dictPrintable r →
      ∀ i, i < (opAt k r true g).1.size → printableByte ((opAt k r true g).1.buf i))
    ∧ ∀ (r : Run) (g : Rng), r.only_printable = true → bufPrintable r →
      dictPrintable r → ∀ i, i < (mangle_mangleContent r g).1.size →
        printableByte ((mangle_mangleContent r g).1.buf i) := by
  constructor
  · intro k r g hb hd i hi
    exact (opGood_opAt k r true g).2.2 rfl hb hd i
  · intro r g hp hb hd i hi
    exact (mangleContent_good r g).2.2 hp hb hd i

/-- C1 witness: the amended theorem applied to a concrete printable context
(the `Bit` operator at `opAt 1`, and a full session). -/
theorem C1_witness :
    (∀ i, i < (opAt 1 rEmptyDict true gZero).1.size →
      printableByte ((opAt 1 rEmptyDict true gZero).1.buf i))
    ∧ ∀ i, i < (mangle_mangleContent rEmptyDict gZero).1.size →
      printableByte ((mangle_mangleContent rEmptyDict gZero).1.buf i) :=
  ⟨C1_printable_preserved.1 1 rEmptyDict gZero (fun i => show printableByte 0x41 by decide)
      (fun t ht => absurd ht (List.not_mem_nil t)),
    C1_printable_preserved.2 rEmptyDict gZero rfl (fun i => show printableByte 0x41 by decide)
      (fun t ht => absurd ht (List.not_mem_nil t))⟩

/-- C6: every operator (the sixteen `mangleFuncs` and `mangle_Resize`) and the
whole `mangle_mangleContent` session re-establish `1 ≤ size ≤ maxFileSz`. -/
theorem C6_size_invariant :
    (∀ (k : Fin 17) (r : Run) (pr : Bool) (g : Rng), 1 ≤ r.size → r.size ≤ r.maxFileSz →
      1 ≤ (opAt k r pr g).1.size ∧ (opAt k r pr g).1.size ≤ (opAt k r pr g).1.maxFileSz)
    ∧ ∀ (r : Run) (g : Rng), 1 ≤ r.size → r.size ≤ r.maxFileSz →
      1 ≤ (mangle_mangleContent r g).1.size ∧
        (mangle_mangleContent r g).1.size ≤ (mangle_mangleContent r g).1.maxFileSz := by
  constructor
  · intro k r pr g h1 h2
    obtain ⟨hst, hsz, _⟩ := opGood_opAt k r pr g
    obtain ⟨a, b⟩ := hsz h1 h2
    refine ⟨a, ?_⟩
    rw [hst.1]
    exact b
  · intro r g h1 h2
    obtain ⟨hst, hsz, _⟩ := mangleContent_good r g
    obtain ⟨a, b⟩ := hsz h1 h2
    refine ⟨a, ?_⟩
    rw [hst.1]
    exact b

/-- C6 witness: the size invariant at a concrete context (operator `Bit`, and
a full session). -/
theorem C6_witness :
    (1 ≤ (opAt 1 rEmptyDict false gZero).1.size ∧
      (opAt 1 rEmptyDict false gZero).1.size ≤ (opAt 1 rEmptyDict false gZero).1.maxFileSz)
    ∧ 1 ≤ (mangle_mangleContent rEmptyDict gZero).1.size ∧
      (mangle_mangleContent rEmptyDict gZero).1.size ≤
        (mangle_mangleContent rEmptyDict gZero).1.maxFileSz :=
  ⟨C6_size_invariant.1 1 rEmptyDict false gZero (by decide) (by decide),
    C6_size_invariant.2 rEmptyDict gZero (by decide) (by decide)⟩

/-- C7: on an empty dictionary, `mangle_Dictionary` and
`mangle_DictionaryInsert` are literally the same invocation as `mangle_Bit`:
same resulting buffer, size, and RNG consumption, on every context and tape. -/
theorem C7_empty_dictionary_fallback :
    ∀ (r : Run) (pr : Bool) (g : Rng), r.dict = [] →
      mangle_Dictionary r pr g = mangle_Bit r pr g ∧
      mangle_DictionaryInsert r pr g = mangle_Bit r pr g := by
  intro r pr g hd
  unfold mangle_Dictionary mangle_DictionaryInsert
  rw [hd]
  exact ⟨rfl, rfl⟩

/-- C7 witness: the fallback equality at a concrete context and tape. -/
theorem C7_witness :
    mangle_Dictionary rEmptyDict true gZero = mangle_Bit rEmptyDict true gZero ∧
    mangle_DictionaryInsert rEmptyDict true gZero = mangle_Bit rEmptyDict true gZero :=
  C7_empty_dictionary_fallback rEmptyDict true gZero rfl

/-- The five-byte buffer `A B C D E` (0x41..0x45), size 5. -/
def rC3 : Run :=
  { buf := bufOf [0x41, 0x42, 0x43, 0x44, 0x45], size := 5, maxFileSz := 5, dict := [],
    mutationsPerRun := 1, mutateMutationsPerRun := 1, only_printable := false }

/-- The all-ones RNG tape: on `rC3`, `mangle_Shrink` draws `len = 2`, `off = 1`. -/
def gOne : Rng := ⟨fun _ => 1, 0⟩

/-- C3, counterexample: with the RNG yielding `len = 2` and `off = 1` on
`[A, B, C, D, E]`, the result does not hold the bytes `[A, D, E]`: positions 1
and 2 keep `B` and `C`, because `input_setSize` runs before `mangle_Move`, so
`Move(off+len = 3, off = 1, 3)` sees its source offset equal to the already
reduced size 3 and no-ops. -/
theorem C3_counterexample :
    rndRange gOne 0 1 (rC3.size - 1) = 2 ∧ rndRange gOne 1 0 2 = 1 ∧
    (mangle_Shrink rC3 false gOne).1.size = 3 ∧
    ¬((mangle_Shrink rC3 false gOne).1.buf 1 = 0x44 ∧
      (mangle_Shrink rC3 false gOne).1.buf 2 = 0x45) := by
  exact ⟨by decide, by decide, rfl, by decide⟩

/-- C3 (amended): on `[A, B, C, D, E]` with draws `len = 2`, `off = 1`, Shrink
resizes to 3 first and only then calls `Move(3, 1, 3)`, which no-ops because
its source offset is not below the new size; the result is size 3 with bytes
`[A, B, C]` (the tail is truncated, nothing slides), consuming two draws. -/
theorem C3_shrink_truncates :
    (mangle_Shrink rC3 false gOne).1.size = 3 ∧
    (mangle_Shrink rC3 false gOne).1.buf 0 = 0x41 ∧
    (mangle_Shrink rC3 false gOne).1.buf 1 = 0x42 ∧
    (mangle_Shrink rC3 false gOne).1.buf 2 = 0x43 ∧
    (mangle_Shrink rC3 false gOne).2 = gOne.next 2 := by
  exact ⟨rfl, by decide, by decide, by decide, rfl⟩

/-! ### The structure of the magic table (claim C4) -/

/-- The twenty-six 1-byte magic values, in table order. -/
def oneByteMagics : List Nat :=
  [0x00, 0x01, 0x02, 0x03, 0x04, 0x05, 0x06, 0x07, 0x08, 0x09, 0x0A, 0x0B, 0x0C, 0x0D,
   0x0E, 0x0F, 0x10, 0x20, 0x40, 0x7E, 0x7F, 0x80, 0x81, 0xC0, 0xFE, 0xFF]

/-- Pad a value list to the 8-byte `val` array. -/
def pad8 (l : List Nat) : List Nat := l ++ List.replicate (8 - l.length) 0

/-- A native-endianness group: `00`, `01`, `80`, `FF` repeated to width `w`. -/
def neGroup (w : Nat) : List (List Nat × Nat) :=
  [(pad8 (List.replicate w 0x00), w), (pad8 (List.replicate w 0x01), w),
   (pad8 (List.replicate w 0x80), w), (pad8 (List.replicate w 0xFF), w)]

/-- A big-endian group of width `w`: a zero-prefixed copy of each NONZERO
1-byte magic (`0x00` itself is omitted: 25 entries), then five boundary
values. -/
def beGroup (w : Nat) (bounds : List (List Nat)) : List (List Nat × Nat) :=
  (oneByteMagics.drop 1).map (fun m => (pad8 (List.replicate (w - 1) 0x00 ++ [m]), w))
    ++ bounds.map fun b => (pad8 b, w)

/-- A little-endian group of width `w`: a zero-suffixed copy of every 1-byte
magic (`0x00` included: 26 entries), then five boundary values. -/
def leGroup (w : Nat) (bounds : List (List Nat)) : List (List Nat × Nat) :=
  oneByteMagics.map (fun m => (pad8 (m :: List.replicate (w - 1) 0x00), w))
    ++ bounds.map fun b => (pad8 b, w)

def be2bounds : List (List Nat) :=
  [[0x7E, 0xFF], [0x7F, 0xFF], [0x80, 0x00], [0x80, 0x01], [0xFF, 0xFE]]

def le2bounds : List (List Nat) :=
  [[0xFF, 0x7E], [0xFF, 0x7F], [0x00, 0x80], [0x01, 0x80], [0xFE, 0xFF]]

def be4bounds : List (List Nat) :=
  [[0x7E, 0xFF, 0xFF, 0xFF], [0x7F, 0xFF, 0xFF, 0xFF], [0x80, 0x00, 0x00, 0x00],
   [0x80, 0x00, 0x00, 0x01], [0xFF, 0xFF, 0xFF, 0xFE]]

def le4bounds : List (List Nat) :=
  [[0xFF, 0xFF, 0xFF, 0x7E], [0xFF, 0xFF, 0xFF, 0x7F], [0x00, 0x00, 0x00, 0x80],
   [0x01, 0x00, 0x00, 0x80], [0xFE, 0xFF, 0xFF, 0xFF]]

def be8bounds : List (List Nat) :=
  [[0x7E, 0xFF, 0xFF, 0xFF, 0xFF, 0xFF, 0xFF, 0xFF], [0x7F, 0xFF, 0xFF, 0xFF, 0xFF, 0xFF, 0xFF, 0xFF],
   [0x80, 0x00, 0x00, 0x00, 0x00, 0x00, 0x00, 0x00], [0x80, 0x00, 0x00, 0x00, 0x00, 0x00, 0x00, 0x01],
   [0xFF, 0xFF, 0xFF, 0xFF, 0xFF, 0xFF, 0xFF, 0xFE]]

def le8bounds : List (List Nat) :=
  [[0xFF, 0xFF, 0xFF, 0xFF, 0xFF, 0xFF, 0xFF, 0x7E], [0xFF, 0xFF, 0xFF, 0xFF, 0xFF, 0xFF, 0xFF, 0x7F],
   [0x00, 0x00, 0x00, 0x00, 0x00, 0x00, 0x00, 0x80], [0x01, 0x00, 0x00, 0x00, 0x00, 0x00, 0x00, 0x80],
   [0xFE, 0xFF, 0xFF, 0xFF, 0xFF, 0xFF, 0xFF, 0xFF]]

/-- The magic table as the spec describes it, with the group contents fixed to
what the code actually holds. -/
def magicTableSpec : List (List Nat × Nat) :=
  (oneByteMagics.map fun m => (pad8 [m], 1))
    ++ neGroup 2 ++ beGroup 2 be2bounds ++ leGroup 2 le2bounds
    ++ neGroup 4 ++ beGroup 4 be4bounds ++ leGroup 4 le4bounds
    ++ neGroup 8 ++ beGroup 8 be8bounds ++ leGroup 8 le8bounds

/-- C4, counterexample: the table does not have 220 entries. -/
theorem C4_counterexample : mangleMagicVals.length ≠ 220 := by decide

/-- C4 (amended): the table has exactly 221 entries, grouped in the order
1-byte (26), 2-byte native (4), 2-byte BE (30), 2-byte LE (31), 4-byte native
(4), 4-byte BE (30), 4-byte LE (31), 8-byte native (4), 8-byte BE (30),
8-byte LE (31); each BE group is a zero-prefixed copy of each NONZERO 1-byte
magic (25 entries) plus the five listed boundary values, and each LE group is
a zero-suffixed copy of every 1-byte magic (26 entries) plus five boundary
values. -/
theorem C4_magic_table_structure :
    mangleMagicVals = magicTableSpec ∧
    mangleMagicVals.length = 221 ∧
    oneByteMagics.length = 26 ∧
    (neGroup 2).length = 4 ∧ (beGroup 2 be2bounds).length = 30 ∧
    (leGroup 2 le2bounds).length = 31 ∧
    (neGroup 4).length = 4 ∧ (beGroup 4 be4bounds).length = 30 ∧
    (leGroup 4 le4bounds).length = 31 ∧
    (neGroup 8).length = 4 ∧ (beGroup 8 be8bounds).length = 30 ∧
    (leGroup 8 le8bounds).length = 31 := by
  refine ⟨by decide, by decide, by decide, by decide, by decide, by decide, by decide,
    by decide, by decide, by decide, by decide, by decide⟩

/-! ### Pointwise characterisation of `mangle_Overwrite`, and LE round-trips -/

theorem getD_take {l : List Nat} {n i : Nat} (d : Nat) (h : i < n) :
    (l.take n).getD i d = l.getD i d := by
  simp [List.getD_eq_getElem?_getD, List.getElem?_take, h]

theorem rndBufP_getD (g : Rng) (k len j : Nat) (h : j < len) :
    (rndBufP g k len).getD j 0 = rndPrintableByte (g.cell (k + j)) := by
  simp [rndBufP, List.getD_eq_getElem?_getD, List.getElem?_map, List.getElem?_range h]

theorem rndBufR_getD (g : Rng) (k len j : Nat) (h : j < len) :
    (rndBufR g k len).getD j 0 = g.cell (k + j) % 256 := by
  simp [rndBufR, List.getD_eq_getElem?_getD, List.getElem?_map, List.getElem?_range h]

/-- What `mangle_Overwrite` does, byte by byte: the write is clamped to
`min sz (size - off)` bytes of `src`. -/
theorem overwrite_buf (r : Run) (src : List Nat) (off sz : Nat) (hsrc : sz ≤ src.length) :
    ∀ i, (mangle_Overwrite r src off sz).buf i =
      if off ≤ i ∧ i < off + min sz (r.size - off) then src.getD (i - off) 0 else r.buf i := by
  intro i
  simp only [mangle_Overwrite]
  by_cases hc : off ≤ i ∧ i < off + min sz (r.size - off)
  · have h2 : i < off + (src.take (if sz > r.size - off then r.size - off else sz)).length := by
      rw [List.length_take]
      split_ifs <;> omega
    rw [if_pos hc, writeBytes_in _ _ hc.1 h2, getD_take _ (by split_ifs <;> omega)]
  · rw [if_neg hc, writeBytes_out]
    rw [List.length_take]
    rintro ⟨ha, hb⟩
    revert hb
    split_ifs <;> omega

theorem readLE_writeBytes_leBytes :
    ∀ (w : Nat) (b : Nat → Nat) (off v : Nat),
      readLE (writeBytes b off (leBytes v w)) off w = v % 2 ^ (8 * w) := by
  intro w
  induction w with
  | zero =>
    intro b off v
    show 0 = v % 1
    omega
  | succ n ih =>
    intro b off v
    show writeBytes b off (leBytes v (n + 1)) off
        + 256 * readLE (writeBytes b off (leBytes v (n + 1))) (off + 1) n = _
    have h1 : writeBytes b off (leBytes v (n + 1)) off = v % 256 := by
      rw [writeBytes_in _ _ (le_refl off) (by rw [leBytes_length]; omega)]
      simp [leBytes]
    have h2 : readLE (writeBytes b off (leBytes v (n + 1))) (off + 1) n
        = readLE (writeBytes b (off + 1) (leBytes (v / 256) n)) (off + 1) n := by
      apply readLE_congr
      intro j hj1 hj2
      rw [writeBytes_in _ _ (by omega) (by rw [leBytes_length]; omega),
        writeBytes_in _ _ hj1 (by rw [leBytes_length]; omega)]
      have hj : j - off = (j - (off + 1)) + 1 := by omega
      rw [hj]
      simp [leBytes]
    rw [h1, h2, ih]
    have hp : (2 : Nat) ^ (8 * (n + 1)) = 256 * 2 ^ (8 * n) := by ring
    rw [hp, Nat.mod_mul]

/-! ### Claim C10: DictionaryInsert at `size = maxFileSz` -/

/-- C10: when the buffer is already at `maxFileSz` and the dictionary is
non-empty, `mangle_DictionaryInsert` degenerates to a plain dictionary
overwrite: `mangle_Inflate` returns immediately (no resize, no shift, no
random fill, no RNG cells beyond the two draws), and the chosen entry is
written over the existing bytes at the chosen offset, clamped to
`size - off`. -/
theorem C10_dictionary_insert_at_max :
    ∀ (r : Run) (pr : Bool) (g : Rng), r.dict ≠ [] → r.size = r.maxFileSz →
      mangle_DictionaryInsert r pr g =
        (mangle_Overwrite r (r.dict.getD (rndRange g 0 0 (r.dict.length - 1)) [])
          (rndRange g 1 0 (r.size - 1))
          (r.dict.getD (rndRange g 0 0 (r.dict.length - 1)) []).length, g.next 2)
      ∧ (mangle_DictionaryInsert r pr g).1.size = r.size
      ∧ ∀ i, (mangle_DictionaryInsert r pr g).1.buf i =
          if rndRange g 1 0 (r.size - 1) ≤ i ∧
              i < rndRange g 1 0 (r.size - 1) +
                min (r.dict.getD (rndRange g 0 0 (r.dict.length - 1)) []).length
                  (r.size - rndRange g 1 0 (r.size - 1))
            then (r.dict.getD (rndRange g 0 0 (r.dict.length - 1)) []).getD
                (i - rndRange g 1 0 (r.size - 1)) 0
            else r.buf i := by
  intro r pr g hne hsz
  have hlen : ¬ r.dict.length = 0 := by simpa using hne
  have hmain : mangle_DictionaryInsert r pr g =
      (mangle_Overwrite r (r.dict.getD (rndRange g 0 0 (r.dict.length - 1)) [])
        (rndRange g 1 0 (r.size - 1))
        (r.dict.getD (rndRange g 0 0 (r.dict.length - 1)) []).length, g.next 2) := by
    simp only [mangle_DictionaryInsert, mangle_DictionaryInsertNoCheck, mangle_Inflate]
    rw [if_neg hlen, if_pos (show r.size ≥ r.maxFileSz by omega)]
  refine ⟨hmain, ?_, ?_⟩
  · rw [hmain]
    rfl
  · intro i
    rw [hmain]
    exact overwrite_buf r _ _ _ (le_refl _) i

/-- A two-byte context at `maxFileSz` with one three-byte dictionary word. -/
def rC10 : Run :=
  { buf := bufOf [0x41, 0x42], size := 2, maxFileSz := 2, dict := [[0x43, 0x44, 0x45]],
    mutationsPerRun := 1, mutateMutationsPerRun := 1, only_printable := false }

/-- C10 witness: the degenerate overwrite at a concrete context: the word
`CDE` is clamped to `CD`, the size stays 2, and only two draws are used. -/
theorem C10_witness :
    mangle_DictionaryInsert rC10 false gZero =
      (mangle_Overwrite rC10 (rC10.dict.getD (rndRange gZero 0 0 (rC10.dict.length - 1)) [])
        (rndRange gZero 1 0 (rC10.size - 1))
        (rC10.dict.getD (rndRange gZero 0 0 (rC10.dict.length - 1)) []).length, gZero.next 2)
    ∧ (mangle_DictionaryInsert rC10 false gZero).1.size = rC10.size :=
  ⟨(C10_dictionary_insert_at_max rC10 false gZero (by decide) rfl).1,
    (C10_dictionary_insert_at_max rC10 false gZero (by decide) rfl).2.1⟩

/-! ### Claim C9: AddSub delta range and 16-bit wrap -/

/-- The two-byte buffer `01 00` (LE value 1). -/
def rC9 : Run :=
  { buf := bufOf [0x01, 0x00], size := 2, maxFileSz := 2, dict := [],
    mutationsPerRun := 1, mutateMutationsPerRun := 1, only_printable := false }

/-- A tape scripting `mangle_AddSub` on `rC9`: `off = 0`, exponent 1 (so
`varLen = 2`), `delta = 4091 - 4096 = -5`, then an odd draw selecting the
native-endian path. -/
def gC9 : Rng := ⟨fun p => [0, 1, 4091, 1].getD p 0, 0⟩

/-- On the native-endian 16-bit path (odd coin draw), `addSubWidth` stores the
two's-complement wrap of `value + delta` back in little-endian order. -/
theorem addSubWidth_native (r : Run) (off : Nat) (d : Int) (g : Rng)
    (hcoin : g.cell 0 % 2 = 1) (hfit : off + 2 ≤ r.size) :
    readLE (addSubWidth r off 2 d g).1.buf off 2
      = (((readLE r.buf off 2 : Int) + d).emod 65536).toNat := by
  have hc : rnd64At g 0 % 2 = 1 := by
    unfold rnd64At
    rw [Nat.mod_mod_of_dvd _ (by norm_num)]
    exact hcoin
  simp only [addSubWidth]
  rw [if_pos hc]
  have hre : (mangle_Overwrite r
      (leBytes ((((readLE r.buf off 2 : Nat) : Int) + d).emod (2 ^ (8 * 2))).toNat 2) off 2).buf
      = writeBytes r.buf off
          (leBytes ((((readLE r.buf off 2 : Nat) : Int) + d).emod (2 ^ (8 * 2))).toNat 2) := by
    simp only [mangle_Overwrite]
    rw [if_neg (by omega)]
    rw [show (leBytes ((((readLE r.buf off 2 : Nat) : Int) + d).emod (2 ^ (8 * 2))).toNat 2).take 2
        = leBytes ((((readLE r.buf off 2 : Nat) : Int) + d).emod (2 ^ (8 * 2))).toNat 2 by
      conv_lhs => rw [show (2 : Nat) =
        (leBytes ((((readLE r.buf off 2 : Nat) : Int) + d).emod (2 ^ (8 * 2))).toNat 2).length
        from (leBytes_length _ _).symm]
      exact List.take_length _]
  rw [hre, readLE_writeBytes_leBytes]
  have h0 : 0 ≤ (((readLE r.buf off 2 : Nat) : Int) + d).emod 65536 :=
    Int.emod_nonneg _ (by norm_num)
  have h1 : (((readLE r.buf off 2 : Nat) : Int) + d).emod 65536 < 65536 :=
    Int.emod_lt_of_pos _ (by norm_num)
  have h2 : (2 : Nat) ^ (8 * 2) = 65536 := by norm_num
  have h3 : (2 : Int) ^ (8 * 2) = 65536 := by norm_num
  rw [h2, h3]
  omega

/-- C9: the AddSub `delta` is `rnd(0, 8192) - 4096`, hence lies in
`[-4096, 4096]`; the 16-bit native path wraps the addition at width 16; and on
`[0x01, 0x00]` with `off = 0`, `varLen = 2`, `delta = -5`, native path, the
result is `[0xFC, 0xFF]` (1 becomes -4 = 0xFFFC little-endian). -/
theorem C9_addsub_delta_and_wrap :
    (∀ (g : Rng) (k : Nat),
      (rndRange g k 0 8192 : Int) - 4096 = ((g.cell k % 8193 : Nat) : Int) - 4096
      ∧ -4096 ≤ (rndRange g k 0 8192 : Int) - 4096
      ∧ (rndRange g k 0 8192 : Int) - 4096 ≤ 4096)
    ∧ (∀ (r : Run) (off : Nat) (d : Int) (g : Rng), g.cell 0 % 2 = 1 → off + 2 ≤ r.size →
        readLE (addSubWidth r off 2 d g).1.buf off 2
          = (((readLE r.buf off 2 : Int) + d).emod 65536).toNat)
    ∧ (mangle_AddSub rC9 false gC9).1.size = 2
    ∧ (mangle_AddSub rC9 false gC9).1.buf 0 = 0xFC
    ∧ (mangle_AddSub rC9 false gC9).1.buf 1 = 0xFF := by
  refine ⟨fun g k => ?_, addSubWidth_native, rfl, by decide, by decide⟩
  unfold rndRange
  have hm : g.cell k % (8192 + 1 - 0) < 8193 := Nat.mod_lt _ (by omega)
  refine ⟨?_, ?_, ?_⟩
  · push_cast
    omega
  · push_cast
    omega
  · push_cast
    omega

/-- C9 witness: the wrap law applied at `rC9`, `off = 0`, `delta = -5`, with
the all-ones tape (odd coin), together with the delta-range fact at a
concrete draw. -/
theorem C9_witness :
    readLE (addSubWidth rC9 0 2 (-5) gOne).1.buf 0 2
      = (((readLE rC9.buf 0 2 : Int) + (-5)).emod 65536).toNat
    ∧ -4096 ≤ (rndRange gOne 0 0 8192 : Int) - 4096
    ∧ (rndRange gOne 0 0 8192 : Int) - 4096 ≤ 4096 :=
  ⟨C9_addsub_delta_and_wrap.2.1 rC9 0 (-5) gOne (by decide) (by decide),
    (C9_addsub_delta_and_wrap.1 gOne 0).2.1,
    (C9_addsub_delta_and_wrap.1 gOne 0).2.2⟩

/-! ### Claim C5: full characterisation of `mangle_Move` -/

/-- C5: `mangle_Move` no-ops when either offset reaches `size`; otherwise it
copies exactly `min len (min (size - offFrom - 1) (size - offTo - 1))` bytes
overlap-safely from `offFrom` to `offTo`, and both every source index and
every destination index lie strictly below `size - 1`, so the final byte is
never read as a source nor written as a destination. -/
theorem C5_move_characterisation :
    ∀ (r : Run) (a c len : Nat),
      (a ≥ r.size ∨ c ≥ r.size → mangle_Move r a c len = r)
      ∧ (a < r.size → c < r.size →
          (mangle_Move r a c len).size = r.size
          ∧ (∀ i, c ≤ i → i < c + min len (min (r.size - a - 1) (r.size - c - 1)) →
              (mangle_Move r a c len).buf i = r.buf (a + (i - c))
              ∧ a + (i - c) < r.size - 1 ∧ i < r.size - 1)
          ∧ ∀ i, ¬(c ≤ i ∧ i < c + min len (min (r.size - a - 1) (r.size - c - 1))) →
              (mangle_Move r a c len).buf i = r.buf i) := by
  intro r a c len
  constructor
  · intro h
    unfold mangle_Move
    rcases h with h | h
    · rw [if_pos h]
    · split
      · rfl
      · rfl
  · intro ha hc
    have hL : (if (if len > r.size - a - 1 then r.size - a - 1 else len) > r.size - c - 1
          then r.size - c - 1
          else if len > r.size - a - 1 then r.size - a - 1 else len)
        = min len (min (r.size - a - 1) (r.size - c - 1)) := by
      split_ifs <;> omega
    simp only [mangle_Move]
    rw [if_neg (by omega), if_neg (by omega), hL]
    refine ⟨rfl, ?_, ?_⟩
    · intro i h1 h2
      exact ⟨moveRange_in _ h1 h2, by omega, by omega⟩
    · intro i hni
      exact moveRange_out _ hni

/-- C5 witness: on the concrete five-byte context, `Move(9, 0, ·)` no-ops
(offset past size), and `Move(1, 0, 3)` copies byte 1 to position 0 while
leaving the final byte (index 4 = size - 1) alone. -/
theorem C5_witness :
    mangle_Move rC3 9 0 3 = rC3
    ∧ (mangle_Move rC3 1 0 3).buf 0 = rC3.buf (1 + (0 - 0))
    ∧ (mangle_Move rC3 1 0 3).buf 4 = rC3.buf 4 :=
  ⟨(C5_move_characterisation rC3 9 0 3).1 (Or.inl (by decide)),
    (((C5_move_characterisation rC3 1 0 3).2 (by decide) (by decide)).2.1 0
      (by decide) (by decide)).1,
    ((C5_move_characterisation rC3 1 0 3).2 (by decide) (by decide)).2.2 4 (by decide)⟩

/-! ### Claim C8: characterisation of `mangle_Resize` -/

/-- The buffer produced by `mangle_Resize`, as a conditional on whether the
size grew (definitional unfolding). -/
theorem resize_buf (r : Run) (pr : Bool) (g : Rng) :
    (mangle_Resize r pr g).1.buf =
      if (mangle_Resize r pr g).1.size > r.size
      then writeBytes r.buf r.size
        (if pr then rndBufP (g.next (if rndRange g 0 0 16 = 0 then 2 else 1)) 0
            ((mangle_Resize r pr g).1.size - r.size)
          else rndBufR (g.next (if rndRange g 0 0 16 = 0 then 2 else 1)) 0
            ((mangle_Resize r pr g).1.size - r.size))
      else r.buf := rfl

/-- The RNG advance of `mangle_Resize` (definitional unfolding). -/
theorem resize_rng (r : Run) (pr : Bool) (g : Rng) :
    (mangle_Resize r pr g).2 =
      g.next (if (mangle_Resize r pr g).1.size > r.size
        then (if rndRange g 0 0 16 = 0 then 2 else 1) + ((mangle_Resize r pr g).1.size - r.size)
        else (if rndRange g 0 0 16 = 0 then 2 else 1)) := rfl

/-- C8: `mangle_Resize` draws `v ∈ [0, 16]`; its base size is
`rnd(1, maxFileSz)` for `v = 0`, `size + v` for `v ∈ [1, 8]`, and
`size + (8 - v)` (a delta in `[-8, -1]`) for `v ∈ [9, 16]`; the new size is
the base clamped to `[1, maxFileSz]`; bytes below `min(old, new)` are kept;
exactly when growing, bytes `[old, new)` are fresh random draws (printable if
flagged); when not growing the buffer is untouched and no fill cells are
consumed. -/
theorem C8_resize_characterisation :
    ∀ (r : Run) (pr : Bool) (g : Rng), 1 ≤ r.size → r.size ≤ r.maxFileSz →
      rndRange g 0 0 16 ≤ 16
      ∧ (9 ≤ rndRange g 0 0 16 → (-8 : Int) ≤ 8 - (rndRange g 0 0 16 : Int)
          ∧ (8 : Int) - (rndRange g 0 0 16 : Int) ≤ -1)
      ∧ (rndRange g 0 0 16 = 0 → 1 ≤ rndRange g 1 1 r.maxFileSz
          ∧ rndRange g 1 1 r.maxFileSz ≤ r.maxFileSz)
      ∧ (mangle_Resize r pr g).1.size =
          (max 1 (min (if rndRange g 0 0 16 = 0 then (rndRange g 1 1 r.maxFileSz : Int)
              else if rndRange g 0 0 16 ≤ 8 then (r.size : Int) + rndRange g 0 0 16
              else (r.size : Int) + (8 - (rndRange g 0 0 16 : Int)))
            (r.maxFileSz : Int))).toNat
      ∧ (∀ i, i < min r.size (mangle_Resize r pr g).1.size →
          (mangle_Resize r pr g).1.buf i = r.buf i)
      ∧ (r.size < (mangle_Resize r pr g).1.size →
          ∀ i, r.size ≤ i → i < (mangle_Resize r pr g).1.size →
            (mangle_Resize r pr g).1.buf i =
              if pr then rndPrintableByte
                  ((g.next (if rndRange g 0 0 16 = 0 then 2 else 1)).cell (i - r.size))
                else (g.next (if rndRange g 0 0 16 = 0 then 2 else 1)).cell (i - r.size) % 256)
      ∧ ((mangle_Resize r pr g).1.size ≤ r.size →
          ∀ i, (mangle_Resize r pr g).1.buf i = r.buf i)
      ∧ (mangle_Resize r pr g).2 = g.next
          ((if rndRange g 0 0 16 = 0 then 2 else 1) +
            (if r.size < (mangle_Resize r pr g).1.size
              then (mangle_Resize r pr g).1.size - r.size else 0)) := by
  intro r pr g h1 h2
  have hlen : ∀ (G : Rng) (L : Nat),
      (if pr then rndBufP G 0 L else rndBufR G 0 L).length = L := by
    intro G L
    split
    · rw [rndBufP_length]
    · rw [rndBufR_length]
  have hv := rndRange_le g 0 0 16 (by omega)
  refine ⟨hv, fun h9 => ⟨by omega, by omega⟩,
    fun h0 => ⟨rndRange_lo _ _ _ _, rndRange_le _ _ _ _ (by omega)⟩, ?_, ?_, ?_, ?_, ?_⟩
  · show (Int.toNat _) = _
    split_ifs <;> omega
  · intro i hi
    by_cases hg : r.size < (mangle_Resize r pr g).1.size
    · rw [resize_buf, if_pos hg, writeBytes_out]
      rw [hlen]
      omega
    · rw [resize_buf, if_neg hg]
  · intro hg i hi1 hi2
    rw [resize_buf, if_pos hg,
      writeBytes_in _ _ hi1 (by rw [hlen]; omega)]
    split
    · rw [rndBufP_getD _ _ _ _ (by omega), Nat.zero_add]
    · rw [rndBufR_getD _ _ _ _ (by omega), Nat.zero_add]
  · intro hle i
    rw [resize_buf, if_neg (by omega)]
  · rw [resize_rng]
    congr 1
    split_ifs <;> omega

/-- The three-byte printable context `abc` with headroom up to 16. -/
def rC8 : Run :=
  { buf := bufOf [0x61, 0x62, 0x63], size := 3, maxFileSz := 16, dict := [],
    mutationsPerRun := 1, mutateMutationsPerRun := 1, only_printable := true }

/-- A tape scripting `mangle_Resize` on `rC8`: `v = 4` (grow by 4 to size 7)
and printable fill `XYZW`. -/
def gC8 : Rng := ⟨fun p => [4, 56, 57, 58, 55].getD p 0, 0⟩

/-- C8 witness: the characterisation applied to the concrete grow-by-4
printable resize. -/
theorem C8_witness :
    (mangle_Resize rC8 true gC8).1.size =
      (max 1 (min (if rndRange gC8 0 0 16 = 0 then (rndRange gC8 1 1 rC8.maxFileSz : Int)
          else if rndRange gC8 0 0 16 ≤ 8 then (rC8.size : Int) + rndRange gC8 0 0 16
          else (rC8.size : Int) + (8 - (rndRange gC8 0 0 16 : Int)))
        (rC8.maxFileSz : Int))).toNat
    ∧ ∀ i, i < min rC8.size (mangle_Resize rC8 true gC8).1.size →
        (mangle_Resize rC8 true gC8).1.buf i = rC8.buf i :=
  ⟨(C8_resize_characterisation rC8 true gC8 (by decide) (by decide)).2.2.2.1,
    (C8_resize_characterisation rC8 true gC8 (by decide) (by decide)).2.2.2.2.1⟩

/-! ### Claim C2: frame and non-interference of the operators -/

theorem rndBufIte_length (pr : Bool) (G : Rng) (k L : Nat) :
    (if pr = true then rndBufP G k L else rndBufR G k L).length = L := by
  split
  · rw [rndBufP_length]
  · rw [rndBufR_length]

/-- Frame and non-interference of one operator invocation: no byte at or past
the resulting size is written; and the resulting size, RNG state and bytes
below the resulting size depend only on the input bytes below
`max size postSize` (together with `size`, `maxFileSz` and the dictionary) —
so nothing past the logical buffer is read, the bound being the size after
growth for the growing operators. -/
def OpFrame (f : Op) : Prop :=
  ∀ (r : Run) (pr : Bool) (g : Rng), 1 ≤ r.size → r.size ≤ r.maxFileSz →
    (∀ j, (f r pr g).1.size ≤ j → (f r pr g).1.buf j = r.buf j) ∧
    ∀ r2 : Run, r2.size = r.size → r2.maxFileSz = r.maxFileSz → r2.dict = r.dict →
      (∀ i, i < max r.size (f r pr g).1.size → r2.buf i = r.buf i) →
      (f r2 pr g).1.size = (f r pr g).1.size ∧ (f r2 pr g).2 = (f r pr g).2 ∧
      ∀ i, i < (f r pr g).1.size → (f r2 pr g).1.buf i = (f r pr g).1.buf i

theorem opFrame_IncByte : OpFrame mangle_IncByte := by
  intro r pr g h1 h2
  have hoff := rndRange_lt_size g 0 r.size h1
  constructor
  · intro j hj
    have hj2 : r.size ≤ j := hj
    exact setByte_other _ _ (by omega)
  · intro r2 hs hm hd hag
    have hag2 : ∀ i, i < r.size → r2.buf i = r.buf i := fun i hi => hag i (by omega)
    refine ⟨hs, rfl, ?_⟩
    intro i hi
    have hi2 : i < r.size := hi
    show setByte r2.buf (rndRange g 0 0 (r2.size - 1)) _ i
        = setByte r.buf (rndRange g 0 0 (r.size - 1)) _ i
    rw [hs]
    by_cases hio : i = rndRange g 0 0 (r.size - 1)
    · subst hio
      rw [setByte_self, setByte_self, hag2 _ (by omega)]
    · rw [setByte_other _ _ hio, setByte_other _ _ hio]
      exact hag2 i hi2

theorem opFrame_DecByte : OpFrame mangle_DecByte := by
  intro r pr g h1 h2
  have hoff := rndRange_lt_size g 0 r.size h1
  constructor
  · intro j hj
    have hj2 : r.size ≤ j := hj
    exact setByte_other _ _ (by omega)
  · intro r2 hs hm hd hag
    have hag2 : ∀ i, i < r.size → r2.buf i = r.buf i := fun i hi => hag i (by omega)
    refine ⟨hs, rfl, ?_⟩
    intro i hi
    have hi2 : i < r.size := hi
    show setByte r2.buf (rndRange g 0 0 (r2.size - 1)) _ i
        = setByte r.buf (rndRange g 0 0 (r.size - 1)) _ i
    rw [hs]
    by_cases hio : i = rndRange g 0 0 (r.size - 1)
    · subst hio
      rw [setByte_self, setByte_self, hag2 _ (by omega)]
    · rw [setByte_other _ _ hio, setByte_other _ _ hio]
      exact hag2 i hi2

theorem opFrame_NegByte : OpFrame mangle_NegByte := by
  intro r pr g h1 h2
  have hoff := rndRange_lt_size g 0 r.size h1
  constructor
  · intro j hj
    have hj2 : r.size ≤ j := hj
    exact setByte_other _ _ (by omega)
  · intro r2 hs hm hd hag
    have hag2 : ∀ i, i < r.size → r2.buf i = r.buf i := fun i hi => hag i (by omega)
    refine ⟨hs, rfl, ?_⟩
    intro i hi
    have hi2 : i < r.size := hi
    show setByte r2.buf (rndRange g 0 0 (r2.size - 1)) _ i
        = setByte r.buf (rndRange g 0 0 (r.size - 1)) _ i
    rw [hs]
    by_cases hio : i = rndRange g 0 0 (r.size - 1)
    · subst hio
      rw [setByte_self, setByte_self, hag2 _ (by omega)]
    · rw [setByte_other _ _ hio, setByte_other _ _ hio]
      exact hag2 i hi2

theorem opFrame_CloneByte : OpFrame mangle_CloneByte := by
  intro r pr g h1 h2
  have ho1 := rndRange_lt_size g 0 r.size h1
  have ho2 := rndRange_lt_size g 1 r.size h1
  constructor
  · intro j hj
    have hj2 : r.size ≤ j := hj
    show setByte (setByte r.buf (rndRange g 0 0 (r.size - 1)) _)
        (rndRange g 1 0 (r.size - 1)) _ j = r.buf j
    rw [setByte_other _ _ (by omega), setByte_other _ _ (by omega)]
  · intro r2 hs hm hd hag
    have hag2 : ∀ i, i < r.size → r2.buf i = r.buf i := fun i hi => hag i (by omega)
    refine ⟨hs, rfl, ?_⟩
    intro i hi
    have hi2 : i < r.size := hi
    show setByte (setByte r2.buf (rndRange g 0 0 (r2.size - 1)) _)
        (rndRange g 1 0 (r2.size - 1)) _ i
      = setByte (setByte r.buf (rndRange g 0 0 (r.size - 1)) _)
          (rndRange g 1 0 (r.size - 1)) _ i
    rw [hs]
    by_cases h2i : i = rndRange g 1 0 (r.size - 1)
    · subst h2i
      rw [setByte_self, setByte_self, hag2 _ (by omega)]
    · rw [setByte_other _ _ h2i, setByte_other _ _ h2i]
      by_cases h1i : i = rndRange g 0 0 (r.size - 1)
      · subst h1i
        rw [setByte_self, setByte_self, hag2 _ (by omega)]
      · rw [setByte_other _ _ h1i, setByte_other _ _ h1i]
        exact hag2 i hi2

theorem opFrame_MemSet : OpFrame mangle_MemSet := by
  intro r pr g h1 h2
  have hoff := rndRange_lt_size (g.next 1) 0 r.size h1
  have hsz := rndRange_le (g.next 1) 1 1
    (r.size - rndRange (g.next 1) 0 0 (r.size - 1)) (by omega)
  constructor
  · intro j hj
    have hj2 : r.size ≤ j := hj
    show fillRange r.buf _ _ _ j = r.buf j
    exact fillRange_out _ (by omega)
  · intro r2 hs hm hd hag
    have hag2 : ∀ i, i < r.size → r2.buf i = r.buf i := fun i hi => hag i (by omega)
    refine ⟨hs, rfl, ?_⟩
    intro i hi
    have hi2 : i < r.size := hi
    show fillRange r2.buf (rndRange (g.next 1) 0 0 (r2.size - 1))
        (rndRange (g.next 1) 1 1 (r2.size - rndRange (g.next 1) 0 0 (r2.size - 1))) _ i
      = fillRange r.buf (rndRange (g.next 1) 0 0 (r.size - 1))
          (rndRange (g.next 1) 1 1 (r.size - rndRange (g.next 1) 0 0 (r.size - 1))) _ i
    rw [hs]
    unfold fillRange
    split
    · rfl
    · exact hag2 i hi2

theorem opFrame_Random : OpFrame mangle_Random := by
  intro r pr g h1 h2
  have hoff := rndRange_lt_size g 0 r.size h1
  have hsz := rndRange_le g 1 1 (r.size - rndRange g 0 0 (r.size - 1)) (by omega)
  constructor
  · intro j hj
    have hj2 : r.size ≤ j := hj
    show writeBytes r.buf _ _ j = r.buf j
    apply writeBytes_out
    rw [rndBufIte_length]
    omega
  · intro r2 hs hm hd hag
    have hag2 : ∀ i, i < r.size → r2.buf i = r.buf i := fun i hi => hag i (by omega)
    refine ⟨hs, ?_, ?_⟩
    · show g.next (2 + rndRange g 1 1 (r2.size - rndRange g 0 0 (r2.size - 1)))
        = g.next (2 + rndRange g 1 1 (r.size - rndRange g 0 0 (r.size - 1)))
      rw [hs]
    · intro i hi
      have hi2 : i < r.size := hi
      show writeBytes r2.buf (rndRange g 0 0 (r2.size - 1)) _ i
        = writeBytes r.buf (rndRange g 0 0 (r.size - 1)) _ i
      rw [hs]
      unfold writeBytes
      split <;> split
      · rfl
      · exact hag2 i hi2
      · rfl
      · exact hag2 i hi2

theorem opFrame_Bytes : OpFrame mangle_Bytes := by
  intro r pr g h1 h2
  have hoff := rndRange_lt_size g 0 r.size h1
  have hsrc : rndRange g 9 1 8 ≤ (if pr = true then rndBufP g 1 8 else rndBufR g 1 8).length := by
    rw [rndBufIte_length]
    exact rndRange_le g 9 1 8 (by omega)
  constructor
  · intro j hj
    have hj2 : r.size ≤ j := hj
    exact overwrite_frame (by omega) hj2
  · intro r2 hs hm hd hag
    have hag2 : ∀ i, i < r.size → r2.buf i = r.buf i := fun i hi => hag i (by omega)
    refine ⟨hs, rfl, ?_⟩
    intro i hi
    have hi2 : i < r.size := hi
    show (mangle_Overwrite r2 (if pr = true then rndBufP g 1 8 else rndBufR g 1 8)
        (rndRange g 0 0 (r2.size - 1)) (rndRange g 9 1 8)).buf i
      = (mangle_Overwrite r (if pr = true then rndBufP g 1 8 else rndBufR g 1 8)
          (rndRange g 0 0 (r.size - 1)) (rndRange g 9 1 8)).buf i
    rw [overwrite_buf _ _ _ _ hsrc i, overwrite_buf _ _ _ _ hsrc i, hs]
    split
    · rfl
    · exact hag2 i hi2

theorem opFrame_ASCIIVal : OpFrame mangle_ASCIIVal := by
  intro r pr g h1 h2
  have hoff := rndRange_lt_size g 1 r.size h1
  constructor
  · intro j hj
    have hj2 : r.size ≤ j := hj
    exact overwrite_frame (by omega) hj2
  · intro r2 hs hm hd hag
    have hag2 : ∀ i, i < r.size → r2.buf i = r.buf i := fun i hi => hag i (by omega)
    refine ⟨hs, rfl, ?_⟩
    intro i hi
    have hi2 : i < r.size := hi
    show (mangle_Overwrite r2 (asciiSigned64 (rnd64At g 0))
        (rndRange g 1 0 (r2.size - 1)) (asciiSigned64 (rnd64At g 0)).length).buf i
      = (mangle_Overwrite r (asciiSigned64 (rnd64At g 0))
          (rndRange g 1 0 (r.size - 1)) (asciiSigned64 (rnd64At g 0)).length).buf i
    rw [overwrite_buf _ _ _ _ (le_refl _) i, overwrite_buf _ _ _ _ (le_refl _) i, hs]
    split
    · rfl
    · exact hag2 i hi2

theorem opFrame_MemMove : OpFrame mangle_MemMove := by
  intro r pr g h1 h2
  constructor
  · intro j hj
    have hj1 : (mangle_Move r (rndRange g 0 0 (r.size - 1)) (rndRange g 1 0 (r.size - 1))
        (rndRange g 2 0 r.size)).size ≤ j := hj
    rw [move_size] at hj1
    show (mangle_Move r _ _ _).buf j = r.buf j
    exact move_frame (by omega)
  · intro r2 hs hm hd hag
    have hag2 : ∀ i, i < r.size → r2.buf i = r.buf i := fun i hi => hag i (by omega)
    refine ⟨?_, rfl, ?_⟩
    · show (mangle_Move r2 _ _ _).size = (mangle_Move r _ _ _).size
      rw [move_size, move_size, hs]
    · intro i hi
      have hi1 : (mangle_Move r (rndRange g 0 0 (r.size - 1)) (rndRange g 1 0 (r.size - 1))
          (rndRange g 2 0 r.size)).size > i := hi
      rw [move_size] at hi1
      have hi2 : i < r.size := hi1
      show (mangle_Move r2 (rndRange g 0 0 (r2.size - 1)) (rndRange g 1 0 (r2.size - 1))
          (rndRange g 2 0 r2.size)).buf i
        = (mangle_Move r (rndRange g 0 0 (r.size - 1)) (rndRange g 1 0 (r.size - 1))
            (rndRange g 2 0 r.size)).buf i
      rw [hs]
      exact move_ni _ _ _ hs hag2 i hi2

theorem opFrame_Bit : OpFrame mangle_Bit := by
  intro r pr g h1 h2
  have hoff := rndRange_lt_size g 0 r.size h1
  constructor
  · intro j hj
    have hj2 : r.size ≤ j := hj
    show (if pr = true
        then turnRange (setByte r.buf (rndRange g 0 0 (r.size - 1)) _)
          (rndRange g 0 0 (r.size - 1)) 1
        else setByte r.buf (rndRange g 0 0 (r.size - 1)) _) j = r.buf j
    split
    · rw [turnRange_out _ (by omega), setByte_other _ _ (by omega)]
    · rw [setByte_other _ _ (by omega)]
  · intro r2 hs hm hd hag
    have hag2 : ∀ i, i < r.size → r2.buf i = r.buf i := fun i hi => hag i (by omega)
    refine ⟨hs, rfl, ?_⟩
    intro i hi
    have hi2 : i < r.size := hi
    show (if pr = true
        then turnRange (setByte r2.buf (rndRange g 0 0 (r2.size - 1)) _)
          (rndRange g 0 0 (r2.size - 1)) 1
        else setByte r2.buf (rndRange g 0 0 (r2.size - 1)) _) i
      = (if pr = true
        then turnRange (setByte r.buf (rndRange g 0 0 (r.size - 1)) _)
          (rndRange g 0 0 (r.size - 1)) 1
        else setByte r.buf (rndRange g 0 0 (r.size - 1)) _) i
    rw [hs]
    by_cases hio : i = rndRange g 0 0 (r.size - 1)
    · subst hio
      split
      · rw [turnRange_in _ (le_refl _) (by omega), turnRange_in _ (le_refl _) (by omega),
          setByte_self, setByte_self, hag2 _ (by omega)]
      · rw [setByte_self, setByte_self, hag2 _ (by omega)]
    · split
      · rw [turnRange_out _ (by omega), turnRange_out _ (by omega),
          setByte_other _ _ hio, setByte_other _ _ hio]
        exact hag2 i hi2
      · rw [setByte_other _ _ hio, setByte_other _ _ hio]
        exact hag2 i hi2

theorem dictionary_size (r : Run) (pr : Bool) (g : Rng) :
    (mangle_Dictionary r pr g).1.size = r.size := by
  unfold mangle_Dictionary
  split
  · rfl
  · rfl

theorem opFrame_Dictionary : OpFrame mangle_Dictionary := by
  intro r pr g h1 h2
  have hoff := rndRange_lt_size g 0 r.size h1
  constructor
  · intro j hj
    have hj1 : (mangle_Dictionary r pr g).1.size ≤ j := hj
    rw [dictionary_size] at hj1
    unfold mangle_Dictionary
    split
    · exact (opFrame_Bit r pr g h1 h2).1 j hj1
    · show (mangle_Overwrite r _ _ _).buf j = r.buf j
      exact overwrite_frame (by omega) hj1
  · intro r2 hs hm hd hag
    have hag2 : ∀ i, i < r.size → r2.buf i = r.buf i := fun i hi => hag i (by omega)
    unfold mangle_Dictionary mangle_DictionaryNoCheck
    rw [hd]
    split
    · refine (opFrame_Bit r pr g h1 h2).2 r2 hs hm hd ?_
      intro i hi
      refine hag i ?_
      have hx : (mangle_Bit r pr g).1.size = r.size := rfl
      have hy : (mangle_Dictionary r pr g).1.size = r.size := dictionary_size r pr g
      omega
    · refine ⟨hs, rfl, ?_⟩
      intro i hi
      have hi2 : i < r.size := hi
      show (mangle_Overwrite r2 (r.dict.getD (rndRange g 1 0 (r.dict.length - 1)) [])
          (rndRange g 0 0 (r2.size - 1))
          (r.dict.getD (rndRange g 1 0 (r.dict.length - 1)) []).length).buf i
        = (mangle_Overwrite r (r.dict.getD (rndRange g 1 0 (r.dict.length - 1)) [])
            (rndRange g 0 0 (r.size - 1))
            (r.dict.getD (rndRange g 1 0 (r.dict.length - 1)) []).length).buf i
      rw [overwrite_buf _ _ _ _ (le_refl _) i, overwrite_buf _ _ _ _ (le_refl _) i, hs]
      split
      · rfl
      · exact hag2 i hi2

theorem shrink_size (r : Run) (pr : Bool) (g : Rng) :
    (mangle_Shrink r pr g).1.size =
      if r.size ≤ 1 then r.size else r.size - rndRange g 0 1 (r.size - 1) := by
  unfold mangle_Shrink
  split
  · rfl
  · show (mangle_Move _ _ _ _).size = _
    rw [move_size]
    rfl

theorem opFrame_Shrink : OpFrame mangle_Shrink := by
  intro r pr g h1 h2
  constructor
  · intro j hj
    have hj1 : (mangle_Shrink r pr g).1.size ≤ j := hj
    rw [shrink_size] at hj1
    unfold mangle_Shrink
    split
    · rfl
    · next h =>
      rw [if_neg h] at hj1
      show (mangle_Move _ _ _ _).buf j = r.buf j
      exact move_frame (show r.size - rndRange g 0 1 (r.size - 1) - 1 ≤ j by omega)
  · intro r2 hs hm hd hag
    have hag2 : ∀ i, i < r.size → r2.buf i = r.buf i := fun i hi => hag i (by omega)
    have hsz2 : (mangle_Shrink r2 pr g).1.size = (mangle_Shrink r pr g).1.size := by
      rw [shrink_size, shrink_size, hs]
    refine ⟨hsz2, ?_, ?_⟩
    · show (mangle_Shrink r2 pr g).2 = (mangle_Shrink r pr g).2
      unfold mangle_Shrink
      rw [hs]
      split
      · rfl
      · rfl
    · intro i hi
      have hi1 : i < (mangle_Shrink r pr g).1.size := hi
      rw [shrink_size] at hi1
      unfold mangle_Shrink
      rw [hs]
      split
      · next h =>
        rw [if_pos h] at hi1
        exact hag2 i hi1
      · next h =>
        rw [if_neg h] at hi1
        show (mangle_Move (input_setSize r2 (r.size - rndRange g 0 1 (r.size - 1)))
            (rndRange g 1 0 (rndRange g 0 1 (r.size - 1)) + rndRange g 0 1 (r.size - 1))
            (rndRange g 1 0 (rndRange g 0 1 (r.size - 1)))
            (r.size - rndRange g 0 1 (r.size - 1))).buf i
          = (mangle_Move (input_setSize r (r.size - rndRange g 0 1 (r.size - 1)))
              (rndRange g 1 0 (rndRange g 0 1 (r.size - 1)) + rndRange g 0 1 (r.size - 1))
              (rndRange g 1 0 (rndRange g 0 1 (r.size - 1)))
              (r.size - rndRange g 0 1 (r.size - 1))).buf i
        refine move_ni _ _ _ ?_ ?_ i ?_
        · rfl
        · intro t ht
          have ht2 : t < r.size - rndRange g 0 1 (r.size - 1) := ht
          exact hag2 t (by omega)
        · exact hi1
  
theorem opFrame_Resize : OpFrame mangle_Resize := by
  intro r pr g h1 h2
  constructor
  · intro j hj
    rw [resize_buf]
    split
    · next h =>
      apply writeBytes_out
      rw [rndBufIte_length]
      omega
    · rfl
  · intro r2 hs hm hd hag
    have hag2 : ∀ i, i < r.size → r2.buf i = r.buf i := fun i hi => hag i (by omega)
    have hsz2 : (mangle_Resize r2 pr g).1.size = (mangle_Resize r pr g).1.size := by
      show (Int.toNat _) = (Int.toNat _)
      rw [hs, hm]
    refine ⟨hsz2, ?_, ?_⟩
    · rw [resize_rng, resize_rng, hsz2, hs]
    · intro i hi
      rw [resize_buf, resize_buf, hsz2, hs]
      split
      · next h =>
        by_cases hin : r.size ≤ i ∧ i < r.size + ((mangle_Resize r pr g).1.size - r.size)
        · rw [writeBytes_in _ _ hin.1 (by rw [rndBufIte_length]; omega),
            writeBytes_in _ _ hin.1 (by rw [rndBufIte_length]; omega)]
        · rw [writeBytes_out _ _ (by rw [rndBufIte_length]; omega),
            writeBytes_out _ _ (by rw [rndBufIte_length]; omega)]
          exact hag2 i (by omega)
      · next h =>
        exact hag2 i (by omega)

theorem inflate_ni (r r2 : Run) (off len : Nat) (pr : Bool) (g : Rng)
    (hs : r2.size = r.size) (hm : r2.maxFileSz = r.maxFileSz) (hoff : off < r.size)
    (hag : ∀ i, i < max r.size (mangle_Inflate r off len pr g).1.size → r2.buf i = r.buf i) :
    (mangle_Inflate r2 off len pr g).1.size = (mangle_Inflate r off len pr g).1.size
    ∧ (mangle_Inflate r2 off len pr g).2 = (mangle_Inflate r off len pr g).2
    ∧ ∀ i, i < (mangle_Inflate r off len pr g).1.size →
        (mangle_Inflate r2 off len pr g).1.buf i = (mangle_Inflate r off len pr g).1.buf i := by
  have hsz2 : (mangle_Inflate r2 off len pr g).1.size
      = (mangle_Inflate r off len pr g).1.size := by
    rw [inflate_size, inflate_size, hs, hm]
  have hrng : (mangle_Inflate r2 off len pr g).2 = (mangle_Inflate r off len pr g).2 := by
    rw [inflate_rng, inflate_rng, hs, hm]
  refine ⟨hsz2, hrng, ?_⟩
  intro i hi
  have hiN : i < (mangle_Inflate r off len pr g).1.size := hi
  rw [inflate_size] at hiN
  unfold mangle_Inflate
  rw [hs, hm]
  split
  · next h =>
    rw [if_pos h] at hiN
    exact hag i (by omega)
  · next h =>
    rw [if_neg h] at hiN
    show writeBytes (mangle_Move (input_setSize r2 (r.size + (if len > r.maxFileSz - r.size then r.maxFileSz - r.size else len))) off
        (off + (if len > r.maxFileSz - r.size then r.maxFileSz - r.size else len)) (r.size + (if len > r.maxFileSz - r.size then r.maxFileSz - r.size else len))).buf off (if pr = true then rndBufP g 0 (if len > r.maxFileSz - r.size then r.maxFileSz - r.size else len) else rndBufR g 0 (if len > r.maxFileSz - r.size then r.maxFileSz - r.size else len)) i
      = writeBytes (mangle_Move (input_setSize r (r.size + (if len > r.maxFileSz - r.size then r.maxFileSz - r.size else len))) off
          (off + (if len > r.maxFileSz - r.size then r.maxFileSz - r.size else len)) (r.size + (if len > r.maxFileSz - r.size then r.maxFileSz - r.size else len))).buf off (if pr = true then rndBufP g 0 (if len > r.maxFileSz - r.size then r.maxFileSz - r.size else len) else rndBufR g 0 (if len > r.maxFileSz - r.size then r.maxFileSz - r.size else len)) i
    have hx : (mangle_Inflate r off len pr g).1.size = r.size + (if len > r.maxFileSz - r.size then r.maxFileSz - r.size else len) := by
      rw [inflate_size, if_neg h]
    by_cases hin : off ≤ i ∧ i < off + (if len > r.maxFileSz - r.size then r.maxFileSz - r.size else len)
    · rw [writeBytes_in _ _ hin.1 (by rw [rndBufIte_length]; omega),
        writeBytes_in _ _ hin.1 (by rw [rndBufIte_length]; omega)]
    · rw [writeBytes_out _ _ (by rw [rndBufIte_length]; omega),
        writeBytes_out _ _ (by rw [rndBufIte_length]; omega)]
      refine move_ni _ _ _ ?_ ?_ i ?_
      · rfl
      · intro t ht
        have ht2 : t < r.size + (if len > r.maxFileSz - r.size then r.maxFileSz - r.size else len) := ht
        exact hag t (by omega)
      · exact hiN

theorem opFrame_Expand : OpFrame mangle_Expand := by
  intro r pr g h1 h2
  have hoff := rndRange_lt_size g 0 r.size h1
  constructor
  · intro j hj
    exact inflate_frame (by omega) j hj
  · intro r2 hs hm hd hag
    have key := inflate_ni r r2 (rndRange g 0 0 (r.size - 1)) (rndRange g 1 1 (r.size - (rndRange g 0 0 (r.size - 1)))) pr (g.next 2) hs hm hoff (fun i hi => hag i hi)
    refine ⟨?_, ?_, ?_⟩
    · show (mangle_Inflate r2 (rndRange g 0 0 (r2.size - 1)) (rndRange g 1 1 (r2.size - (rndRange g 0 0 (r2.size - 1)))) pr (g.next 2)).1.size
        = (mangle_Inflate r (rndRange g 0 0 (r.size - 1)) (rndRange g 1 1 (r.size - (rndRange g 0 0 (r.size - 1)))) pr (g.next 2)).1.size
      rw [hs]
      exact key.1
    · show (mangle_Inflate r2 (rndRange g 0 0 (r2.size - 1)) (rndRange g 1 1 (r2.size - (rndRange g 0 0 (r2.size - 1)))) pr (g.next 2)).2
        = (mangle_Inflate r (rndRange g 0 0 (r.size - 1)) (rndRange g 1 1 (r.size - (rndRange g 0 0 (r.size - 1)))) pr (g.next 2)).2
      rw [hs]
      exact key.2.1
    · intro i hi
      show (mangle_Inflate r2 (rndRange g 0 0 (r2.size - 1)) (rndRange g 1 1 (r2.size - (rndRange g 0 0 (r2.size - 1)))) pr (g.next 2)).1.buf i
        = (mangle_Inflate r (rndRange g 0 0 (r.size - 1)) (rndRange g 1 1 (r.size - (rndRange g 0 0 (r.size - 1)))) pr (g.next 2)).1.buf i
      rw [hs]
      exact key.2.2 i hi

theorem opFrame_DictionaryInsert : OpFrame mangle_DictionaryInsert := by
  intro r pr g h1 h2
  have hoff := rndRange_lt_size g 1 r.size h1
  by_cases h : r.dict.length = 0
  · have he : mangle_DictionaryInsert r pr g = mangle_Bit r pr g := by
      unfold mangle_DictionaryInsert
      rw [if_pos h]
    constructor
    · intro j hj
      rw [he] at hj ⊢
      exact (opFrame_Bit r pr g h1 h2).1 j hj
    · intro r2 hs hm hd hag
      have h2d : r2.dict.length = 0 := by rw [hd]; exact h
      have he2 : mangle_DictionaryInsert r2 pr g = mangle_Bit r2 pr g := by
        unfold mangle_DictionaryInsert
        rw [if_pos h2d]
      rw [he, he2]
      refine (opFrame_Bit r pr g h1 h2).2 r2 hs hm hd ?_
      intro i hi
      refine hag i ?_
      have hx : (mangle_Bit r pr g).1.size = r.size := rfl
      have hy : (mangle_DictionaryInsert r pr g).1.size = r.size := by rw [he]; rfl
      omega
  · have he : mangle_DictionaryInsert r pr g =
        (mangle_Overwrite (mangle_Inflate r (rndRange g 1 0 (r.size - 1)) (r.dict.getD (rndRange g 0 0 (r.dict.length - 1)) []).length pr (g.next 2)).1 (r.dict.getD (rndRange g 0 0 (r.dict.length - 1)) []) (rndRange g 1 0 (r.size - 1)) (r.dict.getD (rndRange g 0 0 (r.dict.length - 1)) []).length, (mangle_Inflate r (rndRange g 1 0 (r.size - 1)) (r.dict.getD (rndRange g 0 0 (r.dict.length - 1)) []).length pr (g.next 2)).2) := by
      unfold mangle_DictionaryInsert mangle_DictionaryInsertNoCheck
      rw [if_neg h]
    have hb := (inflate_size_bounds (rndRange g 1 0 (r.size - 1)) (r.dict.getD (rndRange g 0 0 (r.dict.length - 1)) []).length pr (g.next 2) h2).1
    constructor
    · intro j hj
      rw [he] at hj ⊢
      have hj2 : (mangle_Inflate r (rndRange g 1 0 (r.size - 1)) (r.dict.getD (rndRange g 0 0 (r.dict.length - 1)) []).length pr (g.next 2)).1.size ≤ j := hj
      exact (overwrite_frame (by omega) hj2).trans (inflate_frame (by omega) j hj2)
    · intro r2 hs hm hd hag
      have he2 : mangle_DictionaryInsert r2 pr g =
          (mangle_Overwrite (mangle_Inflate r2 (rndRange g 1 0 (r.size - 1)) (r.dict.getD (rndRange g 0 0 (r.dict.length - 1)) []).length pr (g.next 2)).1 (r.dict.getD (rndRange g 0 0 (r.dict.length - 1)) []) (rndRange g 1 0 (r.size - 1)) (r.dict.getD (rndRange g 0 0 (r.dict.length - 1)) []).length, (mangle_Inflate r2 (rndRange g 1 0 (r.size - 1)) (r.dict.getD (rndRange g 0 0 (r.dict.length - 1)) []).length pr (g.next 2)).2) := by
        unfold mangle_DictionaryInsert mangle_DictionaryInsertNoCheck
        rw [hd, hs, if_neg h]
      have hy : (mangle_DictionaryInsert r pr g).1.size = (mangle_Inflate r (rndRange g 1 0 (r.size - 1)) (r.dict.getD (rndRange g 0 0 (r.dict.length - 1)) []).length pr (g.next 2)).1.size := by rw [he]; rfl
      have key := inflate_ni r r2 (rndRange g 1 0 (r.size - 1)) (r.dict.getD (rndRange g 0 0 (r.dict.length - 1)) []).length pr (g.next 2) hs hm hoff
        (fun i hi => hag i (by omega))
      rw [he, he2]
      refine ⟨key.1, key.2.1, ?_⟩
      intro i hi
      have hi2 : i < (mangle_Inflate r (rndRange g 1 0 (r.size - 1)) (r.dict.getD (rndRange g 0 0 (r.dict.length - 1)) []).length pr (g.next 2)).1.size := hi
      rw [overwrite_buf _ _ _ _ (le_refl _) i, overwrite_buf _ _ _ _ (le_refl _) i, key.1]
      split
      · rfl
      · exact key.2.2 i hi2

theorem addsubWR_ni (r r2 : Run) (off w : Nat) (g : Rng) (hs : r2.size = r.size)
    (hfit : off + w ≤ r.size)
    (hag : ∀ i, i < r.size → r2.buf i = r.buf i) :
    (mangle_AddSubWithRange r2 off w g).2 = (mangle_AddSubWithRange r off w g).2
    ∧ ∀ i, i < r.size →
      (mangle_AddSubWithRange r2 off w g).1.buf i
        = (mangle_AddSubWithRange r off w g).1.buf i := by
  unfold mangle_AddSubWithRange addSubWidth
  split_ifs with e1 e2 e4 e8
  · subst e1
    refine ⟨rfl, ?_⟩
    intro i hi
    show setByte r2.buf off _ i = setByte r.buf off _ i
    by_cases hio : i = off
    · subst hio
      rw [setByte_self, setByte_self, hag _ hi]
    · rw [setByte_other _ _ hio, setByte_other _ _ hio]
      exact hag i hi
  · refine ⟨rfl, ?_⟩
    intro i hi
    have hre : readLE r2.buf off 2 = readLE r.buf off 2 :=
      readLE_congr 2 fun j hj1 hj2 => hag j (by omega)
    show (mangle_Overwrite r2 _ off 2).buf i = (mangle_Overwrite r _ off 2).buf i
    rw [hre, overwrite_buf _ _ _ _ (by simp [leBytes_length]) i,
      overwrite_buf _ _ _ _ (by simp [leBytes_length]) i, hs]
    split
    · rfl
    · exact hag i hi
  · refine ⟨rfl, ?_⟩
    intro i hi
    have hre : readLE r2.buf off 4 = readLE r.buf off 4 :=
      readLE_congr 4 fun j hj1 hj2 => hag j (by omega)
    show (mangle_Overwrite r2 _ off 4).buf i = (mangle_Overwrite r _ off 4).buf i
    rw [hre, overwrite_buf _ _ _ _ (by simp [leBytes_length]) i,
      overwrite_buf _ _ _ _ (by simp [leBytes_length]) i, hs]
    split
    · rfl
    · exact hag i hi
  · refine ⟨rfl, ?_⟩
    intro i hi
    have hre : readLE r2.buf off 8 = readLE r.buf off 8 :=
      readLE_congr 8 fun j hj1 hj2 => hag j (by omega)
    show (mangle_Overwrite r2 _ off 8).buf i = (mangle_Overwrite r _ off 8).buf i
    rw [hre, overwrite_buf _ _ _ _ (by simp [leBytes_length]) i,
      overwrite_buf _ _ _ _ (by simp [leBytes_length]) i, hs]
    split
    · rfl
    · exact hag i hi
  · exact ⟨rfl, fun i hi => hag i hi⟩

theorem opFrame_AddSub : OpFrame mangle_AddSub := by
  intro r pr g h1 h2
  have hoff := rndRange_lt_size g 0 r.size h1
  have hvar : 1 ≤ (if r.size - (rndRange g 0 0 (r.size - 1)) < 2 ^ rndRange g 1 0 3 then 1 else 2 ^ rndRange g 1 0 3) := by
    split_ifs
    · exact le_refl 1
    · exact Nat.one_le_two_pow
  have hfit : (rndRange g 0 0 (r.size - 1)) + (if r.size - (rndRange g 0 0 (r.size - 1)) < 2 ^ rndRange g 1 0 3 then 1 else 2 ^ rndRange g 1 0 3) ≤ r.size := by
    split_ifs with hf
    · omega
    · omega
  constructor
  · intro j hj
    have hj1 : (mangle_AddSubWithRange r (rndRange g 0 0 (r.size - 1)) (if r.size - (rndRange g 0 0 (r.size - 1)) < 2 ^ rndRange g 1 0 3 then 1 else 2 ^ rndRange g 1 0 3) (g.next 2)).1.size ≤ j := hj
    rw [addsubWR_size] at hj1
    show (if pr = true
        then turnRange (mangle_AddSubWithRange r (rndRange g 0 0 (r.size - 1)) (if r.size - (rndRange g 0 0 (r.size - 1)) < 2 ^ rndRange g 1 0 3 then 1 else 2 ^ rndRange g 1 0 3) (g.next 2)).1.buf (rndRange g 0 0 (r.size - 1)) (if r.size - (rndRange g 0 0 (r.size - 1)) < 2 ^ rndRange g 1 0 3 then 1 else 2 ^ rndRange g 1 0 3)
        else (mangle_AddSubWithRange r (rndRange g 0 0 (r.size - 1)) (if r.size - (rndRange g 0 0 (r.size - 1)) < 2 ^ rndRange g 1 0 3 then 1 else 2 ^ rndRange g 1 0 3) (g.next 2)).1.buf) j = r.buf j
    split
    · rw [turnRange_out _ (by omega)]
      exact addsubWR_out hvar (by omega)
    · exact addsubWR_out hvar (by omega)
  · intro r2 hs hm hd hag
    have hag2 : ∀ i, i < r.size → r2.buf i = r.buf i := fun i hi => hag i (by omega)
    have key := addsubWR_ni r r2 (rndRange g 0 0 (r.size - 1)) (if r.size - (rndRange g 0 0 (r.size - 1)) < 2 ^ rndRange g 1 0 3 then 1 else 2 ^ rndRange g 1 0 3) (g.next 2) hs hfit hag2
    refine ⟨?_, ?_, ?_⟩
    · show (mangle_AddSubWithRange r2 (rndRange g 0 0 (r2.size - 1)) (if r2.size - (rndRange g 0 0 (r2.size - 1)) < 2 ^ rndRange g 1 0 3 then 1 else 2 ^ rndRange g 1 0 3) (g.next 2)).1.size
        = (mangle_AddSubWithRange r (rndRange g 0 0 (r.size - 1)) (if r.size - (rndRange g 0 0 (r.size - 1)) < 2 ^ rndRange g 1 0 3 then 1 else 2 ^ rndRange g 1 0 3) (g.next 2)).1.size
      rw [addsubWR_size, addsubWR_size, hs]
    · show (mangle_AddSubWithRange r2 (rndRange g 0 0 (r2.size - 1)) (if r2.size - (rndRange g 0 0 (r2.size - 1)) < 2 ^ rndRange g 1 0 3 then 1 else 2 ^ rndRange g 1 0 3) (g.next 2)).2
        = (mangle_AddSubWithRange r (rndRange g 0 0 (r.size - 1)) (if r.size - (rndRange g 0 0 (r.size - 1)) < 2 ^ rndRange g 1 0 3 then 1 else 2 ^ rndRange g 1 0 3) (g.next 2)).2
      rw [hs]
      exact key.1
    · intro i hi
      have hi1 : i < (mangle_AddSubWithRange r (rndRange g 0 0 (r.size - 1)) (if r.size - (rndRange g 0 0 (r.size - 1)) < 2 ^ rndRange g 1 0 3 then 1 else 2 ^ rndRange g 1 0 3) (g.next 2)).1.size := hi
      rw [addsubWR_size] at hi1
      show (if pr = true
          then turnRange (mangle_AddSubWithRange r2 (rndRange g 0 0 (r2.size - 1)) (if r2.size - (rndRange g 0 0 (r2.size - 1)) < 2 ^ rndRange g 1 0 3 then 1 else 2 ^ rndRange g 1 0 3) (g.next 2)).1.buf (rndRange g 0 0 (r2.size - 1)) (if r2.size - (rndRange g 0 0 (r2.size - 1)) < 2 ^ rndRange g 1 0 3 then 1 else 2 ^ rndRange g 1 0 3)
          else (mangle_AddSubWithRange r2 (rndRange g 0 0 (r2.size - 1)) (if r2.size - (rndRange g 0 0 (r2.size - 1)) < 2 ^ rndRange g 1 0 3 then 1 else 2 ^ rndRange g 1 0 3) (g.next 2)).1.buf) i
        = (if pr = true
          then turnRange (mangle_AddSubWithRange r (rndRange g 0 0 (r.size - 1)) (if r.size - (rndRange g 0 0 (r.size - 1)) < 2 ^ rndRange g 1 0 3 then 1 else 2 ^ rndRange g 1 0 3) (g.next 2)).1.buf (rndRange g 0 0 (r.size - 1)) (if r.size - (rndRange g 0 0 (r.size - 1)) < 2 ^ rndRange g 1 0 3 then 1 else 2 ^ rndRange g 1 0 3)
          else (mangle_AddSubWithRange r (rndRange g 0 0 (r.size - 1)) (if r.size - (rndRange g 0 0 (r.size - 1)) < 2 ^ rndRange g 1 0 3 then 1 else 2 ^ rndRange g 1 0 3) (g.next 2)).1.buf) i
      rw [hs]
      split
      · by_cases hio : (rndRange g 0 0 (r.size - 1)) ≤ i ∧ i < (rndRange g 0 0 (r.size - 1)) + (if r.size - (rndRange g 0 0 (r.size - 1)) < 2 ^ rndRange g 1 0 3 then 1 else 2 ^ rndRange g 1 0 3)
        · rw [turnRange_in _ hio.1 hio.2, turnRange_in _ hio.1 hio.2, key.2 i hi1]
        · rw [turnRange_out _ hio, turnRange_out _ hio]
          exact key.2 i hi1
      · exact key.2 i hi1

theorem magic_entry_wf : ∀ e ∈ mangleMagicVals, e.2 ≤ e.1.length := by decide

theorem magic_getD_wf (k : Nat) :
    (mangleMagicVals.getD k ([], 0)).2 ≤ (mangleMagicVals.getD k ([], 0)).1.length := by
  by_cases h : k < mangleMagicVals.length
  · exact magic_entry_wf _ (getD_mem_of_lt _ h)
  · rw [List.getD_eq_default _ _ (by omega)]
    exact le_refl 0

/-- Frame and non-interference of `mangle_Magic`, under the proviso that in
printable mode the drawn entry fits inside the logical buffer (without it the
final `util_turnToPrintable` pass touches bytes past `dynamicFileSz`). -/
theorem magic_frame_ni (r : Run) (pr : Bool) (g : Rng)
    (h1 : 1 ≤ r.size) (h2 : r.size ≤ r.maxFileSz)
    (hfits : pr = true → magicFits r g) :
    (∀ j, (mangle_Magic r pr g).1.size ≤ j → (mangle_Magic r pr g).1.buf j = r.buf j) ∧
    ∀ r2 : Run, r2.size = r.size → r2.maxFileSz = r.maxFileSz → r2.dict = r.dict →
      (∀ i, i < max r.size (mangle_Magic r pr g).1.size → r2.buf i = r.buf i) →
      (mangle_Magic r2 pr g).1.size = (mangle_Magic r pr g).1.size ∧
      (mangle_Magic r2 pr g).2 = (mangle_Magic r pr g).2 ∧
      ∀ i, i < (mangle_Magic r pr g).1.size →
        (mangle_Magic r2 pr g).1.buf i = (mangle_Magic r pr g).1.buf i := by
  have hoff := rndRange_lt_size g 0 r.size h1
  constructor
  · intro j hj
    have hj2 : r.size ≤ j := hj
    show (if pr = true
        then turnRange (mangle_Overwrite r (mangleMagicVals.getD (rndRange g 1 0 (mangleMagicVals.length - 1)) ([], 0)).1 (rndRange g 0 0 (r.size - 1)) (mangleMagicVals.getD (rndRange g 1 0 (mangleMagicVals.length - 1)) ([], 0)).2).buf (rndRange g 0 0 (r.size - 1)) (mangleMagicVals.getD (rndRange g 1 0 (mangleMagicVals.length - 1)) ([], 0)).2
        else (mangle_Overwrite r (mangleMagicVals.getD (rndRange g 1 0 (mangleMagicVals.length - 1)) ([], 0)).1 (rndRange g 0 0 (r.size - 1)) (mangleMagicVals.getD (rndRange g 1 0 (mangleMagicVals.length - 1)) ([], 0)).2).buf) j = r.buf j
    split
    · next hpr =>
      have hfit2 : (rndRange g 0 0 (r.size - 1)) + (mangleMagicVals.getD (rndRange g 1 0 (mangleMagicVals.length - 1)) ([], 0)).2 ≤ r.size := hfits hpr
      rw [turnRange_out _ (by omega)]
      exact overwrite_frame (by omega) hj2
    · exact overwrite_frame (by omega) hj2
  · intro r2 hs hm hd hag
    have hag2 : ∀ i, i < r.size → r2.buf i = r.buf i := fun i hi => hag i (by omega)
    refine ⟨hs, rfl, ?_⟩
    intro i hi
    have hi2 : i < r.size := hi
    have hOV : ∀ t, t < r.size →
        (mangle_Overwrite r2 (mangleMagicVals.getD (rndRange g 1 0 (mangleMagicVals.length - 1)) ([], 0)).1 (rndRange g 0 0 (r.size - 1)) (mangleMagicVals.getD (rndRange g 1 0 (mangleMagicVals.length - 1)) ([], 0)).2).buf t
          = (mangle_Overwrite r (mangleMagicVals.getD (rndRange g 1 0 (mangleMagicVals.length - 1)) ([], 0)).1 (rndRange g 0 0 (r.size - 1)) (mangleMagicVals.getD (rndRange g 1 0 (mangleMagicVals.length - 1)) ([], 0)).2).buf t := by
      intro t ht
      rw [overwrite_buf _ _ _ _ (magic_getD_wf _) t,
        overwrite_buf _ _ _ _ (magic_getD_wf _) t, hs]
      split
      · rfl
      · exact hag2 t ht
    show (if pr = true
        then turnRange (mangle_Overwrite r2 (mangleMagicVals.getD (rndRange g 1 0 (mangleMagicVals.length - 1)) ([], 0)).1 (rndRange g 0 0 (r2.size - 1)) (mangleMagicVals.getD (rndRange g 1 0 (mangleMagicVals.length - 1)) ([], 0)).2).buf (rndRange g 0 0 (r2.size - 1)) (mangleMagicVals.getD (rndRange g 1 0 (mangleMagicVals.length - 1)) ([], 0)).2
        else (mangle_Overwrite r2 (mangleMagicVals.getD (rndRange g 1 0 (mangleMagicVals.length - 1)) ([], 0)).1 (rndRange g 0 0 (r2.size - 1)) (mangleMagicVals.getD (rndRange g 1 0 (mangleMagicVals.length - 1)) ([], 0)).2).buf) i
      = (if pr = true
        then turnRange (mangle_Overwrite r (mangleMagicVals.getD (rndRange g 1 0 (mangleMagicVals.length - 1)) ([], 0)).1 (rndRange g 0 0 (r.size - 1)) (mangleMagicVals.getD (rndRange g 1 0 (mangleMagicVals.length - 1)) ([], 0)).2).buf (rndRange g 0 0 (r.size - 1)) (mangleMagicVals.getD (rndRange g 1 0 (mangleMagicVals.length - 1)) ([], 0)).2
        else (mangle_Overwrite r (mangleMagicVals.getD (rndRange g 1 0 (mangleMagicVals.length - 1)) ([], 0)).1 (rndRange g 0 0 (r.size - 1)) (mangleMagicVals.getD (rndRange g 1 0 (mangleMagicVals.length - 1)) ([], 0)).2).buf) i
    rw [hs]
    split
    · next hpr =>
      have hfit2 : (rndRange g 0 0 (r.size - 1)) + (mangleMagicVals.getD (rndRange g 1 0 (mangleMagicVals.length - 1)) ([], 0)).2 ≤ r.size := hfits hpr
      by_cases hio : (rndRange g 0 0 (r.size - 1)) ≤ i ∧ i < (rndRange g 0 0 (r.size - 1)) + (mangleMagicVals.getD (rndRange g 1 0 (mangleMagicVals.length - 1)) ([], 0)).2
      · rw [turnRange_in _ hio.1 hio.2, turnRange_in _ hio.1 hio.2, hOV i hi2]
      · rw [turnRange_out _ hio, turnRange_out _ hio]
        exact hOV i hi2
    · exact hOV i hi2

/-- C2 (amended): for every operator invocation (the sixteen `mangleFuncs`
plus `mangle_Resize`; `mangle_Magic` sits at index 3 of `allOps`) on a context
with `1 ≤ size ≤ maxFileSz`, no byte at an index at or past the resulting size
is written, and the resulting size, RNG state and bytes below the resulting
size depend only on the bytes below `max size postSize` — so nothing past the
logical buffer is read (judged after growth for the growing operators) — WITH
the proviso that for `mangle_Magic` in printable mode the drawn entry must
fit (`off + width ≤ size`); in the overflowing case the claim fails (see the
counterexample). -/
theorem C2_frame_and_reads :
    ∀ (k : Fin 17) (r : Run) (pr : Bool) (g : Rng), 1 ≤ r.size → r.size ≤ r.maxFileSz →
      (k.val = 3 → pr = true → magicFits r g) →
      (∀ j, (opAt k r pr g).1.size ≤ j → (opAt k r pr g).1.buf j = r.buf j) ∧
      ∀ r2 : Run, r2.size = r.size → r2.maxFileSz = r.maxFileSz → r2.dict = r.dict →
        (∀ i, i < max r.size (opAt k r pr g).1.size → r2.buf i = r.buf i) →
        (opAt k r2 pr g).1.size = (opAt k r pr g).1.size ∧
        (opAt k r2 pr g).2 = (opAt k r pr g).2 ∧
        ∀ i, i < (opAt k r pr g).1.size →
          (opAt k r2 pr g).1.buf i = (opAt k r pr g).1.buf i := by
  intro k r pr g h1 h2 hfit
  rcases k with ⟨kv, hk⟩
  interval_cases kv
  · exact opFrame_Resize r pr g h1 h2
  · exact opFrame_Bit r pr g h1 h2
  · exact opFrame_Bytes r pr g h1 h2
  · exact magic_frame_ni r pr g h1 h2 (hfit rfl)
  · exact opFrame_IncByte r pr g h1 h2
  · exact opFrame_DecByte r pr g h1 h2
  · exact opFrame_NegByte r pr g h1 h2
  · exact opFrame_AddSub r pr g h1 h2
  · exact opFrame_Dictionary r pr g h1 h2
  · exact opFrame_DictionaryInsert r pr g h1 h2
  · exact opFrame_MemMove r pr g h1 h2
  · exact opFrame_MemSet r pr g h1 h2
  · exact opFrame_Random r pr g h1 h2
  · exact opFrame_CloneByte r pr g h1 h2
  · exact opFrame_Expand r pr g h1 h2
  · exact opFrame_Shrink r pr g h1 h2
  · exact opFrame_ASCIIVal r pr g h1 h2

/-- A one-byte context whose backing byte at index 1 (past `size = 1`) is
non-printable. -/
def rC2 : Run :=
  { buf := fun i => if i = 1 then 0x00 else 0x41, size := 1, maxFileSz := 4, dict := [],
    mutationsPerRun := 1, mutateMutationsPerRun := 1, only_printable := true }

/-- A tape scripting `mangle_Magic` on `rC2`: `off = 0` and table index 26
(the two-byte native entry `00 00`), whose width 2 exceeds `size - off = 1`. -/
def gC2 : Rng := ⟨fun p => if p = 1 then 26 else 0, 0⟩

/-- C2, counterexample: `mangle_Magic` in printable mode with a two-byte entry
at `off = 0` on a one-byte buffer writes index 1 ≥ size: the final
`util_turnToPrintable` pass covers the full entry width without clamping, and
turns the byte `0x00` at index 1 into `0x20`. -/
theorem C2_counterexample :
    (mangle_Magic rC2 true gC2).1.size = 1 ∧ rC2.buf 1 = 0x00 ∧
    (mangle_Magic rC2 true gC2).1.buf 1 = 0x20 ∧
    (mangle_Magic rC2 true gC2).1.buf 1 ≠ rC2.buf 1 := by
  exact ⟨rfl, rfl, by decide, by decide⟩

/-- C2 witness: the amended theorem applied at operator index 1 (`mangle_Bit`)
on a concrete context. -/
theorem C2_witness :
    (∀ j, (opAt 1 rEmptyDict false gZero).1.size ≤ j →
      (opAt 1 rEmptyDict false gZero).1.buf j = rEmptyDict.buf j) ∧
    ∀ r2 : Run, r2.size = rEmptyDict.size → r2.maxFileSz = rEmptyDict.maxFileSz →
      r2.dict = rEmptyDict.dict →
      (∀ i, i < max rEmptyDict.size (opAt 1 rEmptyDict false gZero).1.size →
        r2.buf i = rEmptyDict.buf i) →
      (opAt 1 r2 false gZero).1.size = (opAt 1 rEmptyDict false gZero).1.size ∧
      (opAt 1 r2 false gZero).2 = (opAt 1 rEmptyDict false gZero).2 ∧
      ∀ i, i < (opAt 1 rEmptyDict false gZero).1.size →
        (opAt 1 r2 false gZero).1.buf i = (opAt 1 rEmptyDict false gZero).1.buf i :=
  C2_frame_and_reads 1 rEmptyDict false gZero (by decide) (by decide)
    (fun h3 => absurd h3 (by decide))

end Mangle
